import Mathlib

/-!
Shallow embedding of the druta template core (TypeScript) in Lean 4.

The embedding models, faithfully to the source files:
  * `src/template/parser.ts`   — `TemplateParser` (compile cache: TTL, LRU, keys)
  * `src/template/registry.ts` — `TemplateRegistry.getTemplate` (version resolution)
  * `src/template/variables.ts`— `VariableSubstitutionEngine` (validation, interpolation,
                                  context cache)
  * `src/template/engine.ts`   — `TemplateEngine.validateTemplate`
  * `src/template/processor.ts`— `StreamingFileProcessor` (batch processing)

JavaScript values are modelled by the mutual inductive types `JValue`,
`JList`, `JFields` (JS numbers are modelled as integers; the claims under
study never involve fractional numbers).  JS `Map`s and top-level plain
objects are modelled as association lists in insertion order, which is the
iteration order JS guarantees for both.  Wall-clock time (`Date.now()` /
`performance.now()`) is passed explicitly as a `Nat` parameter.  External
capabilities the source delegates to (the ETA compiler, node's filesystem,
`crypto.createHash`, Ajv's regex engine, the OS environment) are modelled as
explicit oracle parameters; everything the repository itself computes is
embedded.
-/

namespace Druta

/-- Decidable equality for `Except` results (used to evaluate concrete
scenarios). -/
instance {ε α : Type} [DecidableEq ε] [DecidableEq α] : DecidableEq (Except ε α) :=
  fun x y =>
    match x, y with
    | .ok a, .ok b =>
      if h : a = b then isTrue (by rw [h]) else isFalse (fun hc => h (Except.ok.inj hc))
    | .error a, .error b =>
      if h : a = b then isTrue (by rw [h]) else isFalse (fun hc => h (Except.error.inj hc))
    | .ok _, .error _ => isFalse (fun hc => Except.noConfusion hc)
    | .error _, .ok _ => isFalse (fun hc => Except.noConfusion hc)

/-! ### Association lists with JS `Map` / plain-object semantics -/

/-- Key lookup, first match (JS `Map.get` / property read). -/
def lookupA {α : Type} : List (String × α) → String → Option α
  | [], _ => none
  | (k', v) :: rest, k => if k' = k then some v else lookupA rest k

/-- JS `in` / `Map.has`. -/
def hasKeyA {α : Type} (m : List (String × α)) (k : String) : Bool :=
  (lookupA m k).isSome

/-- JS `Map.set` / property assignment: replaces the value in place when the
key exists (keeping its position in iteration order), appends otherwise. -/
def mapSet {α : Type} : List (String × α) → String → α → List (String × α)
  | [], k, v => [(k, v)]
  | (k', v') :: rest, k, v =>
    if k' = k then (k, v) :: rest else (k', v') :: mapSet rest k v

/-- JS `Map.delete` / `delete` of a property. -/
def eraseKey {α : Type} (m : List (String × α)) (k : String) : List (String × α) :=
  m.filter (fun p => p.1 ≠ k)

/-- `Object.assign(target, src)`: assigns each property of `src` in order. -/
def objAssign {α : Type} (target src : List (String × α)) : List (String × α) :=
  src.foldl (fun acc p => mapSet acc p.1 p.2) target

/-- Stable insertion step for `sortBy`. -/
def insertLe {α : Type} (le : α → α → Bool) (x : α) : List α → List α
  | [] => [x]
  | y :: ys => if le x y then x :: y :: ys else y :: insertLe le x ys

/-- Stable sort (JS `Array.prototype.sort` is specified to be stable; a
stable insertion sort realizes the same result for a consistent comparator). -/
def sortBy {α : Type} (le : α → α → Bool) : List α → List α
  | [] => []
  | x :: xs => insertLe le x (sortBy le xs)

/-- Default JS `Array.prototype.sort` string comparison (code-unit
lexicographic `≤`, modelled by Lean's lexicographic string order). -/
def strLe (a b : String) : Bool := decide ¬ b < a

/-! ### Character-list string primitives

Lean core's `String.splitOn`, `String.trim`, `String.toNat?`,
`String.startsWith` and `String.map` are implemented over byte positions and
do not reduce in the kernel; the embedding uses these character-list
equivalents instead. -/

/-- Whitespace trim at both ends (`String.prototype.trim`). -/
def trimChars (l : List Char) : List Char :=
  ((l.dropWhile Char.isWhitespace).reverse.dropWhile Char.isWhitespace).reverse

/-- `String.prototype.trim`. -/
def jsTrim (s : String) : String := String.mk (trimChars s.data)

/-- Split on a one-character separator (JS `split` / node path splitting):
`"" ↦ [""]`, separators at the ends produce empty segments. -/
def splitOnChar (sep : Char) : List Char → List (List Char)
  | [] => [[]]
  | c :: cs =>
    let rest := splitOnChar sep cs
    if c = sep then [] :: rest
    else
      match rest with
      | [] => [[c]]
      | r :: rs => (c :: r) :: rs

/-- Parse a nonempty all-digit numeral. -/
def parseNatQ (l : List Char) : Option Nat :=
  if l ≠ [] ∧ l.all Char.isDigit then
    some (l.foldl (fun acc c => acc * 10 + (c.toNat - 48)) 0)
  else none

/-- `s.startsWith(pre)`. -/
def strStarts (s pre : String) : Bool := pre.data.isPrefixOf s.data

/-- `s.toLowerCase()` (ASCII, which is all the sources exercise). -/
def asciiLower (s : String) : String := String.mk (s.data.map Char.toLower)

/-! ### JavaScript values -/

mutual
/-- A JavaScript (JSON-representable) value.  Numbers are modelled as
integers: every value the claims exercise is integral. -/
inductive JValue where
  | null : JValue
  | bool : Bool → JValue
  | num : Int → JValue
  | str : String → JValue
  | arr : JList → JValue
  | obj : JFields → JValue
deriving DecidableEq, Repr

/-- A JS array of values. -/
inductive JList where
  | nil : JList
  | cons : JValue → JList → JList
deriving DecidableEq, Repr

/-- The own enumerable properties of a JS object, in insertion order. -/
inductive JFields where
  | nil : JFields
  | cons : String → JValue → JFields → JFields
deriving DecidableEq, Repr
end

/-- Property read on an object's field list. -/
def JFields.lookup : JFields → String → Option JValue
  | .nil, _ => none
  | .cons k' v tl, k => if k' = k then some v else tl.lookup k

/-- Build a field list from an association list. -/
def JFields.ofList : List (String × JValue) → JFields
  | [] => .nil
  | (k, v) :: rest => .cons k v (JFields.ofList rest)

/-- Flatten a field list to an association list. -/
def JFields.toList : JFields → List (String × JValue)
  | .nil => []
  | .cons k v tl => (k, v) :: tl.toList

/-- Build a JS array from a Lean list. -/
def JList.ofList : List JValue → JList
  | [] => .nil
  | v :: rest => .cons v (JList.ofList rest)

/-- Flatten a JS array to a Lean list. -/
def JList.toList : JList → List JValue
  | .nil => []
  | .cons v tl => v :: tl.toList

/-- JS object value from an association list. -/
def JValue.objL (l : List (String × JValue)) : JValue := .obj (JFields.ofList l)

/-- JS array value from a Lean list. -/
def JValue.arrL (l : List JValue) : JValue := .arr (JList.ofList l)

/-- JS truthiness (`Boolean(v)`). -/
def jsTruthy : JValue → Bool
  | .null => false
  | .bool b => b
  | .num n => n ≠ 0
  | .str s => s ≠ ""
  | .arr _ => true
  | .obj _ => true

mutual
/-- JS `String(v)` string conversion. -/
def jsToString : JValue → String
  | .null => "null"
  | .bool b => if b then "true" else "false"
  | .num n => toString n
  | .str s => s
  | .arr xs => jsArrJoin xs
  | .obj _ => "[object Object]"

/-- `Array.prototype.join(',')` as used by `String(array)`: `null` elements
become the empty string. -/
def jsArrJoin : JList → String
  | .nil => ""
  | .cons x .nil => jsElemStr x
  | .cons x rest => jsElemStr x ++ "," ++ jsArrJoin rest

def jsElemStr : JValue → String
  | .null => ""
  | .bool b => if b then "true" else "false"
  | .num n => toString n
  | .str s => s
  | .arr xs => jsArrJoin xs
  | .obj _ => "[object Object]"
end

/-- JS `Number(v)` conversion; `none` models `NaN`.  String parsing covers
optionally signed decimal integers (the only numeric strings the claims
exercise); the empty / all-blank string converts to `0`. -/
def jsToNumber : JValue → Option Int
  | .null => some 0
  | .bool b => some (if b then 1 else 0)
  | .num n => some n
  | .str s =>
    match trimChars s.data with
    | [] => some 0
    | '-' :: ds => (parseNatQ ds).map (fun n => -(n : Int))
    | '+' :: ds => (parseNatQ ds).map (fun n => (n : Int))
    | ds => (parseNatQ ds).map (fun n => (n : Int))
  | .arr .nil => some 0
  | .arr (.cons x .nil) => jsToNumber x
  | .arr (.cons _ (.cons _ _)) => none
  | .obj _ => none

/-! ### `JSON.stringify` with a property-list replacer

`JSON.stringify(value, keyArray)` uses `keyArray` as the key list `K` for
**every** object at every depth: object properties whose names are not in `K`
are dropped, and the surviving ones are emitted in the order of `K`.  Arrays
are serialized in full.  This models the exact ECMA-262 `SerializeJSONObject`
behaviour the source relies on in `generateCacheKey`. -/

/-- One hex digit. -/
def hexDigit (n : Nat) : Char :=
  if n < 10 then Char.ofNat (48 + n) else Char.ofNat (87 + n)

/-- JSON string escaping (`QuoteJSONString`). -/
def quoteJ (s : String) : String :=
  "\"" ++ String.join (s.data.map (fun c =>
    if c = '"' then "\\\""
    else if c = '\\' then "\\\\"
    else if c = Char.ofNat 8 then "\\b"
    else if c = Char.ofNat 9 then "\\t"
    else if c = Char.ofNat 10 then "\\n"
    else if c = Char.ofNat 12 then "\\f"
    else if c = Char.ofNat 13 then "\\r"
    else if c.toNat < 32 then
      "\\u00" ++ String.mk [hexDigit (c.toNat / 16), hexDigit (c.toNat % 16)]
    else String.mk [c])) ++ "\""

def joinComma : List String → String
  | [] => ""
  | [x] => x
  | x :: rest => x ++ "," ++ joinComma rest

mutual
/-- `JSON.stringify(v, K)` where `K` is the property-list replacer.  For an
object, the properties named by `K` are emitted in the order of `K`, keeping
only names the object actually binds — at every depth. -/
def stringifyWith (K : List String) : JValue → String
  | .null => "null"
  | .bool b => if b then "true" else "false"
  | .num n => toString n
  | .str s => quoteJ s
  | .arr xs => "[" ++ stringifyArr K xs ++ "]"
  | .obj fields =>
    let sv := serializeFields K fields
    "\x7b" ++ joinComma (K.filterMap (fun k =>
      (lookupA sv k).map (fun s => quoteJ k ++ ":" ++ s))) ++ "\x7d"

def stringifyArr (K : List String) : JList → String
  | .nil => ""
  | .cons x .nil => stringifyWith K x
  | .cons x rest => stringifyWith K x ++ "," ++ stringifyArr K rest

/-- Serialize every property value of an object (keys kept, insertion order). -/
def serializeFields (K : List String) : JFields → List (String × String)
  | .nil => []
  | .cons k v tl => (k, stringifyWith K v) :: serializeFields K tl
end

/-- `Object.keys(o).sort()`. -/
def sortedKeys (fields : List (String × JValue)) : List String :=
  sortBy strLe (fields.map (·.1))

/-! ## `TemplateParser` (src/template/parser.ts)

The compile cache maps cache keys to `TemplateCacheEntry`.  The compiled ETA
template function (`result.template`) is opaque to the parser; it is modelled
as a `Nat` handle produced by the compiler oracle, so "referentially the same
object" in JS becomes equality of the stored handle. -/

/-- Extracted template metadata (interface `TemplateMetadata` of parser.ts).
The `extends` field is called `extendsParent` (keyword clash). -/
structure TemplateMeta where
  path : String
  lastModified : Nat
  size : Nat
  vars : List String
  helpers : List String
  partials : List String
  extendsParent : Option String
deriving DecidableEq, Repr

/-- Interface `TemplateCompilationResult`. -/
structure TemplateCompilationResult where
  template : Nat
  compilationTime : Nat
  dependencies : List String
  meta : TemplateMeta
  cacheKey : String
deriving DecidableEq, Repr

/-- Interface `TemplateCacheEntry`: `ttl` stores the absolute expiry instant
(`now + 5 minutes` at insertion). -/
structure TemplateCacheEntry where
  result : TemplateCompilationResult
  lastAccessed : Nat
  accessCount : Nat
  ttl : Nat
deriving DecidableEq, Repr

/-- The parser's `cache : Map<string, TemplateCacheEntry>`. -/
abbrev TemplateCache := List (String × TemplateCacheEntry)

/-- The TTL constant hard-coded in `cacheTemplate`: 5 minutes in ms. -/
def templateTtlMs : Nat := 5 * 60 * 1000

/-- `node:path`'s `resolve(root, p)`, modelled without `.`/`..` normalization
(none of the claims exercise it): absolute paths are kept, relative ones are
joined to the root. -/
def pathResolve (root p : String) : String :=
  if strStarts p "/" then p else root ++ "/" ++ p

/-- `TemplateParser.generateCacheKey`: the key is
`resolvedPath + ":" + JSON.stringify(variables, Object.keys(variables).sort())`,
or `resolvedPath + ":"` when no variables are bound. -/
def generateCacheKey (templatePath : String)
    (vars : Option (List (String × JValue))) : String :=
  let variableHash :=
    match vars with
    | some vs => stringifyWith (sortedKeys vs) (JValue.objL vs)
    | none => ""
  templatePath ++ ":" ++ variableHash

/-- `TemplateParser.getCachedTemplate`: `none` on absence; lazy deletion and a
miss when `now > ttl`; otherwise the entry's `lastAccessed`/`accessCount` are
updated in place and the (updated) entry returned. -/
def getCachedTemplate (cache : TemplateCache) (cacheKey : String) (now : Nat) :
    Option TemplateCacheEntry × TemplateCache :=
  match lookupA cache cacheKey with
  | none => (none, cache)
  | some entry =>
    if now > entry.ttl then (none, eraseKey cache cacheKey)
    else
      let entry' := { entry with lastAccessed := now, accessCount := entry.accessCount + 1 }
      (some entry', mapSet cache cacheKey entry')

/-- `TemplateParser.evictLeastRecentlyUsed`: scan for the entry with the
smallest `lastAccessed`, starting from `('', Date.now())` and updating only on
a strictly smaller value; delete the found key unless none beat the start. -/
def evictLeastRecentlyUsed (cache : TemplateCache) (now : Nat) : TemplateCache :=
  let oldest := cache.foldl
    (fun acc kv => if kv.2.lastAccessed < acc.2 then (kv.1, kv.2.lastAccessed) else acc)
    ("", now)
  if oldest.1 ≠ "" then eraseKey cache oldest.1 else cache

/-- `TemplateParser.cacheTemplate`: evict first when at capacity, then insert
a fresh entry with `accessCount = 1` and `ttl = now + 5 minutes`. -/
def cacheTemplate (cacheSize : Nat) (cache : TemplateCache) (cacheKey : String)
    (result : TemplateCompilationResult) (now : Nat) : TemplateCache :=
  let cache' := if cache.length ≥ cacheSize then evictLeastRecentlyUsed cache now else cache
  mapSet cache' cacheKey
    { result := result, lastAccessed := now, accessCount := 1, ttl := now + templateTtlMs }

/-- The parser's mutable state: the compile cache plus the
`performanceMetrics` counters touched by `parseTemplate`. -/
structure ParserState where
  cache : TemplateCache
  cacheHits : Nat
  cacheMisses : Nat
  totalCompilations : Nat
  totalProcessingTime : Nat
deriving DecidableEq, Repr

/-- Parser configuration (the fields `parseTemplate` reads). -/
structure ParserCfg where
  templateRoot : String
  cacheSize : Nat
  enableInheritance : Bool
  helperNames : List String
deriving DecidableEq, Repr

/-- Oracles for the external capabilities `parseTemplate` consumes: node's
filesystem (`readFile`, `stat`), the JS `RegExp` engine driving metadata
extraction (match lists for the four patterns of `analyzeTemplate`, and the
block substitution of `processInheritance`), and the ETA compiler. -/
structure ParserOracle where
  /-- `readFile(path, 'utf-8')`: `none` models a thrown I/O error. -/
  readFile : String → Option String
  /-- `fs.promises.stat(path)`: `(mtimeMs, size)`; `none` models a throw. -/
  statFile : String → Option (Nat × Nat)
  /-- All captures of `/<%[=\-]?\s*([a-zA-Z_$][a-zA-Z0-9_$]*)/g` over the content. -/
  variableMatches : String → List String
  /-- All captures of the `include(...)` partial pattern over the content. -/
  partialMatches : String → List String
  /-- All captures of the helper-invocation pattern over the content. -/
  helperMatches : String → List String
  /-- The capture of `/<%\s*extends\s*['"`]([^'"`]+)['"`]/`, if it matches. -/
  extendsMatch : String → Option String
  /-- `processInheritance`'s regex-driven block substitution of child blocks
  into the parent content. -/
  substituteBlocks : String → String → String
  /-- `existsSync`. -/
  existsSync : String → Bool
  /-- `eta.compile(content, opts)`: an opaque handle; `.error` models a throw. -/
  etaCompile : String → Except String Nat

/-- JS `Set` insertion-order deduplication (`Array.from(new Set(...))`):
keep the first occurrence of each element. -/
def dedupFirst (l : List String) : List String :=
  (l.foldl (fun acc x => if acc.contains x then acc else acc ++ [x]) [])

/-- `TemplateParser.analyzeTemplate`: stat the file and extract variable,
partial and helper names (each deduplicated in first-occurrence order; helper
candidates are kept only when a configured helper of that name exists) and the
inheritance parent. -/
def analyzeTemplate (cfg : ParserCfg) (O : ParserOracle) (templatePath content : String) :
    Except String TemplateMeta :=
  match O.statFile templatePath with
  | none => .error ("ENOENT: " ++ templatePath)
  | some stats =>
    .ok { path := templatePath
          lastModified := stats.1
          size := stats.2
          vars := dedupFirst (O.variableMatches content)
          helpers := dedupFirst ((O.helperMatches content).filter
            (fun h => cfg.helperNames.contains h))
          partials := dedupFirst (O.partialMatches content)
          extendsParent := O.extendsMatch content }

/-- `TemplateParser.processInheritance`: resolve the parent, fail when it does
not exist, read it and substitute the child's named blocks into it. -/
def processInheritance (cfg : ParserCfg) (O : ParserOracle)
    (content parentTemplate : String) : Except String String :=
  let parentPath := pathResolve cfg.templateRoot parentTemplate
  if ¬ O.existsSync parentPath then
    .error ("Parent template not found: " ++ parentTemplate)
  else
    match O.readFile parentPath with
    | none => .error ("ENOENT: " ++ parentPath)
    | some parentContent => .ok (O.substituteBlocks parentContent content)

/-- Options of `parseTemplate`. -/
structure ParseOpts where
  skipCache : Bool := false
  vars : Option (List (String × JValue)) := none
deriving DecidableEq, Repr

/-- `TemplateParser.parseTemplate`.  A cache hit (unless `skipCache`) bumps
`cacheHits` and returns the cached result verbatim; otherwise `cacheMisses` is
bumped, the file is read and analyzed, inheritance applied when enabled,
the content compiled, and the result inserted into the cache (with LRU
eviction at capacity).  Every thrown error is re-wrapped with the template
path.  `compilationTime` is modelled as `0` (wall-clock duration of the
compile call). -/
def parseTemplate (cfg : ParserCfg) (O : ParserOracle) (st : ParserState)
    (templatePath : String) (options : ParseOpts) (now : Nat) :
    Except String (TemplateCompilationResult × ParserState) :=
  let resolvedPath := pathResolve cfg.templateRoot templatePath
  let cacheKey := generateCacheKey resolvedPath options.vars
  -- the miss path, starting from the cache left by the (possibly skipped) lookup
  let miss : TemplateCache → Except String (TemplateCompilationResult × ParserState) :=
    fun cache0 =>
      let st1 := { st with cache := cache0, cacheMisses := st.cacheMisses + 1 }
      match O.readFile resolvedPath with
      | none => .error ("Template compilation failed for " ++ templatePath)
      | some templateContent =>
        match analyzeTemplate cfg O resolvedPath templateContent with
        | .error e => .error ("Template compilation failed for " ++ templatePath ++ ": " ++ e)
        | .ok meta =>
          let processed : Except String String :=
            match cfg.enableInheritance, meta.extendsParent with
            | true, some parent => processInheritance cfg O templateContent parent
            | _, _ => .ok templateContent
          match processed with
          | .error e => .error ("Template compilation failed for " ++ templatePath ++ ": " ++ e)
          | .ok processedContent =>
            match O.etaCompile processedContent with
            | .error e => .error ("Template compilation failed for " ++ templatePath ++ ": " ++ e)
            | .ok tpl =>
              let result : TemplateCompilationResult :=
                { template := tpl
                  compilationTime := 0
                  dependencies := meta.partials
                  meta := meta
                  cacheKey := cacheKey }
              let cache'' := cacheTemplate cfg.cacheSize st1.cache cacheKey result now
              .ok (result,
                { st1 with
                  cache := cache''
                  totalCompilations := st1.totalCompilations + 1 })
  if options.skipCache then miss st.cache
  else
    match getCachedTemplate st.cache cacheKey now with
    | (some entry, cache') =>
      .ok (entry.result, { st with cache := cache', cacheHits := st.cacheHits + 1 })
    | (none, cache') => miss cache'

/-! ## `TemplateRegistry.getTemplate` (src/template/registry.ts)

Version resolution over an already-discovered descriptor list.  The `semver`
npm package is external; its comparison and range-satisfaction semantics are
embedded here following the semantic-versioning specification for the syntax
the repository exercises: plain `maj.min.pat` versions, a plain version used
as an exact range, and caret ranges (`^maj.min.pat`). -/

/-- A parsed semantic version (no prerelease/build; descriptors under study
carry plain versions). -/
structure Semver where
  major : Nat
  minor : Nat
  patch : Nat
deriving DecidableEq, Repr

/-- Parse `"maj.min.pat"`. -/
def parseSemver (s : String) : Option Semver :=
  match splitOnChar '.' s.data with
  | [a, b, c] =>
    match parseNatQ a, parseNatQ b, parseNatQ c with
    | some ma, some mi, some pa => some ⟨ma, mi, pa⟩
    | _, _, _ => none
  | _ => none

/-- Version order. -/
def semverLt (a b : Semver) : Bool :=
  a.major < b.major ∨
  (a.major = b.major ∧ (a.minor < b.minor ∨ (a.minor = b.minor ∧ a.patch < b.patch)))

/-- `semver.satisfies(version, range)` for the range syntax in play: a caret
range `^x.y.z` (≥ x.y.z and within the leftmost non-zero component), or a
plain version meaning exact equality.  Unparseable input never satisfies. -/
def semverSatisfies (version range : String) : Bool :=
  match parseSemver version with
  | none => false
  | some v =>
    if strStarts range "^" then
      match parseSemver (String.mk range.data.tail) with
      | none => false
      | some r =>
        ¬ semverLt v r ∧
        (if r.major > 0 then v.major = r.major
         else if r.minor > 0 then v.major = 0 ∧ v.minor = r.minor
         else v.major = 0 ∧ v.minor = 0 ∧ v.patch = r.patch)
    else
      match parseSemver range with
      | none => false
      | some r => v = r

/-- `semver.rcompare(a, b) ≤ 0` as a sort predicate: `a` comes no later than
`b` exactly when `a`'s version is at least `b`'s. -/
def rcompareLe (a b : String) : Bool :=
  match parseSemver a, parseSemver b with
  | some va, some vb => ¬ semverLt va vb
  | _, _ => true

/-- The descriptor fields `getTemplate` reads. -/
structure Descriptor where
  name : String
  version : String
deriving DecidableEq, Repr

/-- `TemplateRegistry.getTemplate` over the discovered descriptor list (in
discovery order).  With no version: the version-descending sort's head.  With
a version string: an exact string match first, else the **first** descriptor
in list order whose version satisfies the range, else absent. -/
def getTemplate (templates : List Descriptor) (name : String)
    (version : Option String) : Option Descriptor :=
  let matching := templates.filter (fun t => t.name = name)
  if matching.isEmpty then none
  else
    match version with
    | some ver =>
      match matching.find? (fun t => t.version = ver) with
      | some exact => some exact
      | none =>
        match matching.find? (fun t => semverSatisfies t.version ver) with
        | some rangeMatch => some rangeMatch
        | none => none
    | none =>
      (sortBy (fun a b => rcompareLe a.version b.version) matching).head?

/-! ## `TemplateEngine.validateTemplate` (src/template/engine.ts)

Descriptor validation before generation.  Only metadata fields the validator
reads are modelled. -/

/-- `TemplateDependency`. -/
structure TemplateDependency where
  name : String
  version : String
deriving DecidableEq, Repr

/-- The fields of `TemplateVariableSchema` that descriptor validation reads
(`name` and `type`; an absent/empty `type` string is JS-falsy). -/
structure VarSchemaRef where
  name : String
  type : String
deriving DecidableEq, Repr

/-- `TemplateFileConfig` (fields read by validation). -/
structure TemplateFileConfig where
  source : String
  destination : String
deriving DecidableEq, Repr

/-- `SecurityStatus.status`. -/
inductive SecStatus where
  | pending | passed | failed | warning
deriving DecidableEq, Repr

/-- The descriptor fields `validateTemplate` reads. -/
structure TemplateMetadataDesc where
  name : String
  version : String
  description : String
  dependencies : List TemplateDependency
  varSchemas : List VarSchemaRef
  files : List TemplateFileConfig
  securityStatus : SecStatus
deriving DecidableEq, Repr

/-- `TemplateValidationResult` (errors and warnings in push order). -/
structure TemplateValidationResult where
  valid : Bool
  errors : List String
  warnings : List String
deriving DecidableEq, Repr

/-- `TemplateEngine.isValidSemver`:
`/^\d+\.\d+\.\d+(-[a-zA-Z0-9.-]+)?(\+[a-zA-Z0-9.-]+)?$/`. -/
def isValidSemver (version : String) : Bool :=
  let isPartChar : Char → Bool := fun c =>
    c.isAlpha ∨ c.isDigit ∨ c = '.' ∨ c = '-'
  let chars := version.data
  let digits1 := chars.takeWhile Char.isDigit
  let rest1 := chars.drop digits1.length
  match digits1, rest1 with
  | [], _ => false
  | _, '.' :: rest2 =>
    let digits2 := rest2.takeWhile Char.isDigit
    let rest3 := rest2.drop digits2.length
    match digits2, rest3 with
    | [], _ => false
    | _, '.' :: rest4 =>
      let digits3 := rest4.takeWhile Char.isDigit
      let rest5 := rest4.drop digits3.length
      match digits3, rest5 with
      | [], _ => false
      | _, [] => true
      | _, '-' :: pre =>
        -- optional prerelease, then optional build part
        let preChars := pre.takeWhile (fun c => isPartChar c)
        let rest6 := pre.drop preChars.length
        preChars ≠ [] ∧
          (rest6 = [] ∨
            (rest6.headD ' ' = '+' ∧ rest6.length > 1 ∧
              (rest6.drop 1).all isPartChar))
      | _, '+' :: build =>
        build ≠ [] ∧ build.all isPartChar
      | _, _ => false
    | _, _ => false
  | _, _ => false

/-- `TemplateEngine.validateTemplate`: collect errors (fatal) and warnings
(advisory) exactly in source order.  A missing/blank description is recorded
as a **warning**; a "failed" security scan is an error and a "warning" one a
warning. -/
def validateTemplate (t : TemplateMetadataDesc) : TemplateValidationResult :=
  let nameErrs := if t.name = "" ∨ (jsTrim t.name).length = 0
    then ["Template name is required"] else []
  let versionErrs := if t.version = "" ∨ ¬ isValidSemver t.version
    then ["Valid semver version is required"] else []
  let descWarns := if t.description = "" ∨ (jsTrim t.description).length = 0
    then ["Template description is missing"] else []
  let depErrs := t.dependencies.filterMap (fun dep =>
    if dep.name = "" ∨ dep.version = "" then some ("Invalid dependency: " ++ dep.name)
    else none)
  let varErrs := t.varSchemas.filterMap (fun v =>
    if v.name = "" ∨ v.type = "" then some ("Invalid variable schema: " ++ v.name)
    else none)
  let fileErrs := t.files.filterMap (fun f =>
    if f.source = "" ∨ f.destination = "" then some ("Invalid file configuration: " ++ f.source)
    else none)
  let secErrs := if t.securityStatus = .failed
    then ["Template failed security scan"] else []
  let secWarns := if t.securityStatus = .warning
    then ["Template has security warnings"] else []
  let errors := nameErrs ++ versionErrs ++ depErrs ++ varErrs ++ fileErrs ++ secErrs
  { valid := errors.isEmpty, errors := errors, warnings := descWarns ++ secWarns }

/-- The validation gate of `TemplateEngine.generateFromTemplate` (step 2,
engine.ts lines 184–188): a generation run throws — and therefore reports a
failed result — as soon as `validateTemplate` is invalid, before any variable
resolution or file processing. -/
def generateValidationGate (t : TemplateMetadataDesc) : Except String Unit :=
  let validation := validateTemplate t
  if validation.valid then .ok ()
  else .error ("Template validation failed: " ++ String.intercalate ", " validation.errors)

/-! ## `VariableSubstitutionEngine` (src/template/variables.ts)

Schema validation, coercion, transformation, computed variables,
interpolation, and the variable-context cache.  Ajv's regex engine is an
oracle (`rx pattern input`); `crypto.createHash('sha256')` is an oracle
string-to-string function; `process.env` / `node:os` facts are oracle data. -/

/-- `TemplateVariableSchema` (registry.ts): the fields the variable engine
reads.  `type` is one of the five JS type names. -/
inductive VarType where
  | string | number | boolean | array | object
deriving DecidableEq, Repr

structure VariableSchema where
  name : String
  type : VarType
  default : Option JValue := none
  required : Bool := false
  pattern : Option String := none
  enumVals : Option (List JValue) := none
  minimum : Option Int := none
  maximum : Option Int := none
deriving DecidableEq, Repr

/-- `VariableValidationError` (fields used by the claims). -/
structure VariableValidationError where
  varName : String
  message : String
  code : String
deriving DecidableEq, Repr

/-- `VariableValidationResult`; `sanitized` is a plain object in insertion
order. -/
structure VariableValidationResult where
  valid : Bool
  errors : List VariableValidationError
  sanitized : List (String × JValue)
deriving DecidableEq, Repr

/-- `VariableSubstitutionEngine.coerceValue`: JS-semantics coercion to the
schema type; only the `number` case can throw. -/
def coerceValue (value : JValue) (schema : VariableSchema) : Except String JValue :=
  match schema.type with
  | .string => .ok (.str (jsToString value))
  | .number =>
    match jsToNumber value with
    | none => .error ("Cannot convert '" ++ jsToString value ++ "' to number")
    | some n => .ok (.num n)
  | .boolean =>
    match value with
    | .bool _ => .ok value
    | .str s =>
      let lower := asciiLower s
      if lower = "true" ∨ lower = "1" ∨ lower = "yes" then .ok (.bool true)
      else if lower = "false" ∨ lower = "0" ∨ lower = "no" then .ok (.bool false)
      else .ok (.bool (jsTruthy value))
    | _ => .ok (.bool (jsTruthy value))
  | .array =>
    match value with
    | .arr _ => .ok value
    | _ => .ok (.arr (.cons value .nil))
  | .object =>
    -- JS `typeof value === 'object'` is true for objects, arrays and null
    match value with
    | .obj _ => .ok value
    | .arr _ => .ok value
    | .null => .ok value
    | _ => .ok (.obj .nil)

/-- The checks Ajv runs for `convertToJsonSchema(schema)` (type, then the
optional pattern / enum / minimum / maximum keywords), with `allErrors`:
returns every failing keyword with its message.  `rx pat s` is the external
regex engine. -/
def ajvErrors (rx : String → String → Bool) (schema : VariableSchema)
    (value : JValue) : List (String × String) :=
  let typeOk : Bool :=
    match schema.type, value with
    | .string, .str _ => true
    | .number, .num _ => true
    | .boolean, .bool _ => true
    | .array, .arr _ => true
    | .object, .obj _ => true
    | _, _ => false
  let typeName := match schema.type with
    | .string => "string" | .number => "number" | .boolean => "boolean"
    | .array => "array" | .object => "object"
  let e1 : List (String × String) :=
    if typeOk then [] else [("type", "must be " ++ typeName)]
  let e2 := e1 ++ (match schema.pattern, value with
    | some pat, .str s =>
      if rx pat s then [] else [("pattern", "must match pattern \"" ++ pat ++ "\"")]
    | _, _ => [])
  let e3 := e2 ++ (match schema.enumVals with
    | some allowed =>
      if allowed.contains value then []
      else [("enum", "must be equal to one of the allowed values")]
    | none => [])
  let e4 := e3 ++ (match schema.minimum, value with
    | some lo, .num n => if n < lo then [("minimum", "must be >= " ++ toString lo)] else []
    | _, _ => [])
  let e5 := e4 ++ (match schema.maximum, value with
    | some hi, .num n => if n > hi then [("maximum", "must be <= " ++ toString hi)] else []
    | _, _ => [])
  e5

/-- Validation of one bound variable (the body of the first loop of
`validateVariables`): returns either the sanitized value or the pushed
error records.  The `instancePath` of a top-level Ajv error is empty, so Ajv
messages get a leading space. -/
def validateOne (rx : String → String → Bool) (schemas : List (String × VariableSchema))
    (name : String) (value : JValue) :
    Except (List VariableValidationError) JValue :=
  match lookupA schemas name with
  | none => .ok value
  | some schema =>
    match coerceValue value schema with
    | .error msg => .error [{ varName := name, message := msg, code := "coercion_error" }]
    | .ok coerced =>
      match ajvErrors rx schema coerced with
      | [] => .ok coerced
      | errs =>
        .error (errs.map (fun e =>
          { varName := name, message := " " ++ e.2, code := e.1 }))

/-- One iteration of the first loop of `validateVariables` (accumulates the
pushed errors and the sanitized object). -/
def vvBindStep (rx : String → String → Bool) (schemas : List (String × VariableSchema))
    (acc : List VariableValidationError × List (String × JValue))
    (p : String × JValue) : List VariableValidationError × List (String × JValue) :=
  match validateOne rx schemas p.1 p.2 with
  | .ok v => (acc.1, mapSet acc.2 p.1 v)
  | .error errs => (acc.1 ++ errs, acc.2)

/-- One iteration of the required-variable sweep of `validateVariables`. -/
def vvRequiredStep (vars : List (String × JValue))
    (acc : List VariableValidationError × List (String × JValue))
    (p : String × VariableSchema) :
    List VariableValidationError × List (String × JValue) :=
  if p.2.required ∧ ¬ hasKeyA vars p.1 then
    match p.2.default with
    | some d => (acc.1, mapSet acc.2 p.1 d)
    | none =>
      (acc.1 ++ [{ varName := p.1
                   message := "Required variable '" ++ p.1 ++ "' is missing"
                   code := "required_missing" }], acc.2)
  else acc

/-- `VariableSubstitutionEngine.validateVariables`: validate every bound
variable in order, then sweep the declared schemas for required-but-absent
names — filling the declared default when present, recording a
`required_missing` error otherwise. -/
def validateVariables (rx : String → String → Bool)
    (schemas : List (String × VariableSchema))
    (vars : List (String × JValue)) : VariableValidationResult :=
  let step1 := vars.foldl (vvBindStep rx schemas) ([], [])
  let step2 := schemas.foldl (vvRequiredStep vars) step1
  { valid := step2.1.isEmpty, errors := step2.1, sanitized := step2.2 }

/-- `VariableContext`. -/
structure VariableContext where
  env : List (String × String) := []
  user : List (String × JValue) := []
  system : List (String × JValue) := []
  computed : List (String × JValue) := []
  secrets : List (String × String) := []
deriving DecidableEq, Repr

/-- JS generic property read `current?.[key]` on a `JValue`, as used by
`getNestedValue`: object fields, canonical array indices and `length`, string
indices and `length`; everything else is `undefined`. -/
def jsIndex (v : JValue) (key : String) : Option JValue :=
  match v with
  | .obj fs => fs.lookup key
  | .arr xs =>
    if key = "length" then some (.num (xs.toList.length : Int))
    else match parseNatQ key.data with
      | some i => if toString i = key then xs.toList.get? i else none
      | none => none
  | .str s =>
    if key = "length" then some (.num (s.length : Int))
    else match parseNatQ key.data with
      | some i =>
        if toString i = key then (s.data.get? i).map (fun c => .str (String.mk [c]))
        else none
      | none => none
  | _ => none

/-- `VariableSubstitutionEngine.getNestedValue`: walk the dot-separated path
through the variable map (`path.split('.').reduce((cur, k) => cur?.[k], obj)`). -/
def getNestedValue (vars : List (String × JValue)) (path : String) : Option JValue :=
  match (splitOnChar '.' path.data).map String.mk with
  | [] => none
  | k0 :: ks => (lookupA vars k0).bind (fun v0 => goPath v0 ks)
where
  goPath : JValue → List String → Option JValue
    | v, [] => some v
    | v, k :: ks => (jsIndex v k).bind (fun v' => goPath v' ks)

/-- The scanner realizing `str.replace(/\$\{([^}]+)\}/g, ...)` of
`interpolateString`: find `"${"`, take at least one non-`'}'` character up to
a closing `'}'`; a resolved path is replaced by `String(value)`, an
unresolved one leaves the whole token; where the token syntax does not match,
scanning resumes at the next character exactly like the regex engine. -/
def interpScan (vars : List (String × JValue)) : List Char → List Char
  | [] => []
  | c :: cs =>
    if c = '$' ∧ cs.head? = some '{' then
      let rest := cs.tail
      let body := rest.takeWhile (fun ch => ch ≠ '}')
      -- `body.length < rest.length` exactly when a closing '}' exists
      if body ≠ [] ∧ body.length < rest.length then
        let after := rest.drop (body.length + 1)
        match getNestedValue vars (String.mk (trimChars body)) with
        | some v => (jsToString v).data ++ interpScan vars after
        | none => '$' :: '{' :: (body ++ '}' :: interpScan vars after)
      else
        c :: interpScan vars cs
    else c :: interpScan vars cs
termination_by l => l.length
decreasing_by
  all_goals simp only [List.length_cons, List.length_drop, List.length_tail]
  all_goals omega

/-- `VariableSubstitutionEngine.interpolateString`. -/
def interpolateString (s : String) (vars : List (String × JValue)) : String :=
  String.mk (interpScan vars s.data)

mutual
/-- `VariableSubstitutionEngine.interpolateObject`: recursive interpolation
through arrays and objects; strings interpolated, other leaves unchanged. -/
def interpolateObject (v : JValue) (vars : List (String × JValue)) : JValue :=
  match v with
  | .arr xs => .arr (interpolateList xs vars)
  | .obj fs => .obj (interpolateFields fs vars)
  | .str s => .str (interpolateString s vars)
  | other => other

def interpolateList (xs : JList) (vars : List (String × JValue)) : JList :=
  match xs with
  | .nil => .nil
  | .cons x tl => .cons (interpolateObject x vars) (interpolateList tl vars)

def interpolateFields (fs : JFields) (vars : List (String × JValue)) : JFields :=
  match fs with
  | .nil => .nil
  | .cons k v tl => .cons k (interpolateObject v vars) (interpolateFields tl vars)
end

/-- The merged lookup map `allVariables = {...env, ...system, ...user,
...computed}` built by `interpolateVariables` (spread: later layers
overwrite). -/
def mergedLayers (ctx : VariableContext) : List (String × JValue) :=
  objAssign (objAssign (objAssign
    (ctx.env.map (fun p => (p.1, JValue.str p.2))) ctx.system) ctx.user) ctx.computed

/-- `VariableSubstitutionEngine.interpolateVariables`: per top-level entry —
strings interpolated; arrays have exactly their **string items** interpolated
(non-string items pass through unchanged); objects are interpolated
recursively; other values pass through. -/
def interpolateVariables (vars : List (String × JValue)) (ctx : VariableContext) :
    List (String × JValue) :=
  let allVariables := mergedLayers ctx
  vars.foldl (fun acc p =>
    let nv : JValue :=
      match p.2 with
      | .str s => .str (interpolateString s allVariables)
      | .arr xs => .arr (interpArrItems xs allVariables)
      | .obj fs => .obj (interpolateFields fs allVariables)
      | other => other
    mapSet acc p.1 nv) []
where
  /-- `value.map(item => typeof item === 'string' ? interpolateString(...) : item)`. -/
  interpArrItems : JList → List (String × JValue) → JList
    | .nil, _ => .nil
    | .cons x tl, av =>
      .cons (match x with
             | .str s => .str (interpolateString s av)
             | other => other) (interpArrItems tl av)

/-! ### Computed variables and string-case transforms -/

/-- Facts `computeVariables` draws from `Date`, `process` and the OS; one
snapshot per resolution call. -/
structure SysInfo where
  timestamp : String
  date : String
  time : String
  year : Int
  month : Int
  day : Int
  platform : String
  arch : String
  nodeVersion : String
  cwd : String
deriving DecidableEq, Repr

/-- `toKebabCase` scanner: insert `-` between a lowercase/uppercase pair
(`/([a-z])([A-Z])/g`). -/
def kebabScan : List Char → List Char
  | [] => []
  | [c] => [c]
  | a :: b :: rest =>
    if a.isLower ∧ b.isUpper then a :: '-' :: kebabScan (b :: rest)
    else a :: kebabScan (b :: rest)

/-- `VariableSubstitutionEngine.toKebabCase`. -/
def toKebabCase (s : String) : String :=
  asciiLower (String.mk (kebabScan s.data))

/-- `toSnakeCase` scanner (same pattern, `_` separator). -/
def snakeScan : List Char → List Char
  | [] => []
  | [c] => [c]
  | a :: b :: rest =>
    if a.isLower ∧ b.isUpper then a :: '_' :: snakeScan (b :: rest)
    else a :: snakeScan (b :: rest)

/-- `VariableSubstitutionEngine.toSnakeCase`. -/
def toSnakeCase (s : String) : String :=
  asciiLower (String.mk (snakeScan s.data))

/-- A separator for `toCamelCase` (`[-_\s]`). -/
def isSepChar (c : Char) : Bool := c = '-' ∨ c = '_' ∨ c.isWhitespace

/-- `toCamelCase` scanner (`/[-_\s]+(.)?/g` replaced by the upper-cased
captured character): a separator run upper-cases the next character; a
trailing run disappears. -/
def camelScan : Bool → List Char → List Char
  | _, [] => []
  | pending, c :: rest =>
    if isSepChar c then camelScan true rest
    else if pending then c.toUpper :: camelScan false rest
    else c :: camelScan false rest

/-- `VariableSubstitutionEngine.toCamelCase`. -/
def toCamelCase (s : String) : String := String.mk (camelScan false s.data)

/-- `VariableSubstitutionEngine.toPascalCase`. -/
def toPascalCase (s : String) : String :=
  let camel := toCamelCase s
  match camel.data with
  | [] => ""
  | c :: rest => String.mk (c.toUpper :: rest)

/-- `VariableSubstitutionEngine.computeVariables`: the engine-derived
variables, in source insertion order.  When `context.user['projectName']` is
truthy the four case variants are added; calling `.replace` on a truthy
non-string raises a `TypeError` (modelled as the thrown error). -/
def computeVariables (sys : SysInfo) (ctx : VariableContext) :
    Except String (List (String × JValue)) :=
  let base : List (String × JValue) :=
    [("timestamp", .str sys.timestamp), ("date", .str sys.date),
     ("time", .str sys.time), ("year", .num sys.year),
     ("month", .num sys.month), ("day", .num sys.day),
     ("platform", .str sys.platform), ("arch", .str sys.arch),
     ("nodeVersion", .str sys.nodeVersion), ("cwd", .str sys.cwd)]
  match lookupA ctx.user "projectName" with
  | some pv =>
    if jsTruthy pv then
      match pv with
      | .str s =>
        .ok (base ++
          [("projectNameKebab", .str (toKebabCase s)),
           ("projectNameCamel", .str (toCamelCase s)),
           ("projectNamePascal", .str (toPascalCase s)),
           ("projectNameSnake", .str (toSnakeCase s))])
      | _ => .error "TypeError: str.replace is not a function"
    else .ok base
  | none => .ok base

/-! ### The variable-context cache and `resolveVariables` -/

/-- `VariableCacheEntry`: `ttl` stores the absolute expiry instant
(`now + config.cacheTtl` at insertion). -/
structure VariableCacheEntry where
  context : VariableContext
  cachedAt : Nat
  ttl : Nat
  hash : String
deriving DecidableEq, Repr

/-- The engine's `cache : Map<string, VariableCacheEntry>`. -/
abbrev ContextCache := List (String × VariableCacheEntry)

/-- `VariableSubstitutionEngine.getCachedContext`: `none` on absence; lazy
deletion and a miss when `now > ttl`; no access bookkeeping. -/
def getCachedContext (cache : ContextCache) (cacheKey : String) (now : Nat) :
    Option VariableCacheEntry × ContextCache :=
  match lookupA cache cacheKey with
  | none => (none, cache)
  | some entry =>
    if now > entry.ttl then (none, eraseKey cache cacheKey)
    else (some entry, cache)

/-- `VariableSubstitutionEngine.cacheContext`. -/
def cacheContext (cacheTtl : Nat) (cache : ContextCache) (cacheKey : String)
    (context : VariableContext) (now : Nat) : ContextCache :=
  mapSet cache cacheKey
    { context := context, cachedAt := now, ttl := now + cacheTtl, hash := cacheKey }

/-- `VariableResolutionOptions` (absent fields model absent JS properties;
the serialization order of present fields follows the interface declaration). -/
structure ResolutionOptions where
  environment : Option String := none
  includeSystem : Option Bool := none
  includeEnv : Option Bool := none
  overrides : Option (List (String × JValue)) := none
  skipValidation : Option Bool := none
  enableInterpolation : Option Bool := none

/-- The present option properties as JS object fields. -/
def optionFields (o : ResolutionOptions) : List (String × JValue) :=
  (match o.environment with | some e => [("environment", JValue.str e)] | none => []) ++
  (match o.includeSystem with | some b => [("includeSystem", JValue.bool b)] | none => []) ++
  (match o.includeEnv with | some b => [("includeEnv", JValue.bool b)] | none => []) ++
  (match o.overrides with | some l => [("overrides", JValue.objL l)] | none => []) ++
  (match o.skipValidation with | some b => [("skipValidation", JValue.bool b)] | none => []) ++
  (match o.enableInterpolation with | some b => [("enableInterpolation", JValue.bool b)] | none => [])

/-- `VariableSubstitutionEngine.generateCacheKey`:
`sha256(JSON.stringify({userVariables, options}, Object.keys({...userVariables, ...options}).sort()))`.
The property-list replacer is the sorted union of the **inner** key sets, so
the outer keys `userVariables` / `options` are filtered out unless a user
variable happens to carry one of those names. -/
def generateCtxCacheKey (sha256 : String → String)
    (userVariables : List (String × JValue)) (options : ResolutionOptions) : String :=
  let K := sortBy strLe
    ((objAssign userVariables (optionFields options)).map (fun p => p.1))
  let data := stringifyWith K
    (JValue.objL [("userVariables", JValue.objL userVariables),
                  ("options", JValue.objL (optionFields options))])
  sha256 data

/-- A named transformer function (`config.transformers`); `.error` models a
thrown exception, which the engine downgrades to a warning. -/
def Transformer : Type := JValue → VariableContext → Except String JValue

/-- `VariableConfig` (fields the resolver reads). -/
structure VariableCfg where
  environments : List (String × List (String × JValue)) := []
  defaults : List (String × JValue) := []
  transformers : List (String × Transformer) := []
  schemas : List (String × VariableSchema) := []
  enableCaching : Bool := true
  cacheTtl : Nat := 5 * 60 * 1000

/-- `VariableSubstitutionEngine.applyTransformations`: each configured
transformer whose name is bound replaces the value on success; a throwing
transformer is logged and the prior value kept. -/
def applyTransformations (transformers : List (String × Transformer))
    (vars : List (String × JValue)) (ctx : VariableContext) :
    List (String × JValue) :=
  transformers.foldl (fun acc p =>
    match lookupA acc p.1 with
    | none => acc
    | some v =>
      match p.2 v ctx with
      | .ok v' => mapSet acc p.1 v'
      | .error _ => acc) vars

/-- Oracles for `resolveVariables`: `process.env`, the `node:os` system
snapshot, `Date`/`process` facts for computed variables, Ajv's regex engine,
and `crypto.createHash('sha256')`. -/
structure ResolverOracle where
  procEnv : List (String × String)
  sysVars : List (String × JValue)
  sysInfo : SysInfo
  rx : String → String → Bool
  sha256 : String → String

/-- `VariableSubstitutionEngine.resolveVariables`: cache lookup (when
enabled), layered merge (environment config, defaults, user variables,
overrides), validation (throwing on any error), transformations, computed
variables, interpolation, secrets (empty), and cache insertion — in source
order.  Returns the outcome (context, or the thrown message) together with
the cache state the call leaves behind — the cache is instance state in the
source, so it survives a throw. -/
def resolveVariables (cfg : VariableCfg) (O : ResolverOracle) (cache : ContextCache)
    (userVariables : List (String × JValue)) (options : ResolutionOptions)
    (now : Nat) : Except String VariableContext × ContextCache :=
  let cacheKey := generateCtxCacheKey O.sha256 userVariables options
  let afterLookup : Option VariableCacheEntry × ContextCache :=
    if cfg.enableCaching then getCachedContext cache cacheKey now
    else (none, cache)
  match afterLookup with
  | (some entry, cache') => (.ok entry.context, cache')
  | (none, cache') =>
    let envLayer := if options.includeEnv ≠ some false then O.procEnv else []
    let systemLayer := if options.includeSystem ≠ some false then O.sysVars else []
    let user0 : List (String × JValue) :=
      match options.environment with
      | some envName =>
        objAssign [] ((lookupA cfg.environments envName).getD [])
      | none => []
    let user1 := objAssign user0 cfg.defaults
    let user2 := objAssign user1 userVariables
    let user3 := match options.overrides with
      | some ovr => objAssign user2 ovr
      | none => user2
    let validated : Except String (List (String × JValue)) :=
      if options.skipValidation ≠ some true then
        let validation := validateVariables O.rx cfg.schemas user3
        if ¬ validation.valid then
          .error ("Variable validation failed: " ++
            String.intercalate ", " (validation.errors.map (fun e => e.message)))
        else .ok validation.sanitized
      else .ok user3
    match validated with
    | .error e => (.error e, cache')
    | .ok user4 =>
      let ctx1 : VariableContext :=
        { env := envLayer, user := user4, system := systemLayer,
          computed := [], secrets := [] }
      let user5 := applyTransformations cfg.transformers user4 ctx1
      let ctx2 := { ctx1 with user := user5 }
      match computeVariables O.sysInfo ctx2 with
      | .error e => (.error e, cache')
      | .ok computed0 =>
        let ctx3 := { ctx2 with computed := computed0 }
        let final : VariableContext :=
          if options.enableInterpolation ≠ some false then
            let user6 := interpolateVariables ctx3.user ctx3
            let ctx4 := { ctx3 with user := user6 }
            let computed1 := interpolateVariables ctx4.computed ctx4
            { ctx4 with computed := computed1 }
          else ctx3
        let final := { final with secrets := [] }
        let cache'' :=
          if cfg.enableCaching then cacheContext cfg.cacheTtl cache' cacheKey final now
          else cache'
        (.ok final, cache'')

/-! ## `StreamingFileProcessor` (src/template/processor.ts)

Per-file processing and batch aggregation.  All filesystem effects and the
delegated template compile+render step are oracle functions; a `.error`
result of an oracle models a thrown exception.  The worker pool of the
source is initialized but unused ("using direct processing"): jobs are
processed sequentially in list order.  Durations and the derived
floating-point metrics (throughput, average time, memory) are outside the
model; `processingTime` is fixed to `0`. -/

/-- `fs.Stats` fields the processor reads. -/
structure FileStat where
  size : Nat
  mode : Nat
deriving DecidableEq, Repr

/-- A custom file filter (`FileFilter`). -/
def FileFilter : Type := String → FileStat → Bool

/-- `ProcessingOptions` (defaults are `defaultProcessingOptions`). -/
structure ProcessingOptions where
  skipBinary : Bool := true
  preservePermissions : Bool := true
  incremental : Bool := false
  filters : List FileFilter := []
  templateExtensions : List String :=
    [".eta", ".html", ".htm", ".txt", ".md", ".js", ".ts", ".json"]
  maxFileSize : Nat := 100 * 1024 * 1024
  enableCompression : Bool := false

/-- `FileProcessingResult.status`. -/
inductive FileStatus where
  | success | skipped | error
deriving DecidableEq, Repr

/-- `FileProcessingResult`. -/
structure FileProcessingResult where
  sourcePath : String
  destinationPath : String
  status : FileStatus
  processingTime : Nat
  fileSize : Nat
  error : Option String := none
  templated : Bool
deriving DecidableEq, Repr

/-- `ProcessingJob`. -/
structure ProcessingJob where
  id : String
  sourcePath : String
  destinationPath : String
  vars : List (String × JValue)
  options : ProcessingOptions

/-- `BatchProcessingResult` (counts, ordered per-file results and the total
time; the floating-point `metrics` block is outside the model). -/
structure BatchProcessingResult where
  totalFiles : Nat
  successCount : Nat
  skippedCount : Nat
  errorCount : Nat
  totalTime : Nat
  results : List FileProcessingResult
deriving DecidableEq, Repr

/-- Filesystem / renderer oracles for the processor.  `render` stands for the
`parser.parseTemplate` + `parser.renderTemplate` pair invoked by
`processTemplateFile` (its success value is the rendered text). -/
structure ProcOracle where
  mkdirp : String → Except String Unit
  statF : String → Except String FileStat
  mime : String → Option String
  read1k : String → Option (List Nat)
  copyF : String → String → Except String Unit
  chmodF : String → Nat → Except String Unit
  render : String → List (String × JValue) → Except String String
  writeF : String → String → Except String Unit
  streamCopy : String → String → Except String Unit

/-- Index of the last occurrence of `c`. -/
def lastIdxOf (c : Char) : List Char → Option Nat
  | [] => none
  | x :: xs =>
    match lastIdxOf c xs with
    | some i => some (i + 1)
    | none => if x = c then some 0 else none

/-- `node:path`'s `extname`: the suffix from the last `.` of the basename;
empty for dotfiles and extension-less names. -/
def extname (p : String) : String :=
  let base := (splitOnChar '/' p.data).getLastD []
  match lastIdxOf '.' base with
  | none => ""
  | some 0 => ""
  | some i => String.mk (base.drop i)

/-- `node:path`'s `dirname` (as far as the processor's use requires: the
part before the last separator, `.` when there is none). -/
def dirname (p : String) : String :=
  let parts := splitOnChar '/' p.data
  if parts.length ≤ 1 then "."
  else String.intercalate "/" (parts.dropLast.map String.mk)

/-- `StreamingFileProcessor.isTemplateFile`. -/
def isTemplateFile (filePath : String) (templateExtensions : List String) : Bool :=
  templateExtensions.contains (asciiLower (extname filePath))

/-- `StreamingFileProcessor.shouldProcessFile`: size ceiling, then every
custom filter. -/
def shouldProcessFile (filePath : String) (stats : FileStat)
    (options : ProcessingOptions) : Bool :=
  if stats.size > options.maxFileSize then false
  else options.filters.all (fun f => f filePath stats)

/-- `StreamingFileProcessor.isBinaryFile`: a non-`text/*` MIME association
decides binary; otherwise the first 1KB is scanned for a null byte, with any
read error swallowed as "not binary". -/
def isBinaryFile (O : ProcOracle) (filePath : String) : Bool :=
  let nullByteCheck :=
    match O.read1k filePath with
    | some bytes => bytes.contains 0
    | none => false
  match O.mime filePath with
  | some m => if ¬ strStarts m "text/" then true else nullByteCheck
  | none => nullByteCheck

/-- `StreamingFileProcessor.processFile`: ensure the destination directory,
stat, re-check filters (a failure is a `skipped` result), branch into
binary copy / template render / stream copy, preserve permissions when
configured; **any** thrown step is caught and converted into an `error`
result carrying the message — never rethrown. -/
def processFile (O : ProcOracle) (sourcePath destinationPath : String)
    (vars : List (String × JValue)) (options : ProcessingOptions) :
    FileProcessingResult :=
  let errRes : String → FileProcessingResult := fun msg =>
    { sourcePath := sourcePath, destinationPath := destinationPath,
      status := .error, processingTime := 0, fileSize := 0,
      error := some msg, templated := false }
  match O.mkdirp (dirname destinationPath) with
  | .error msg => errRes msg
  | .ok _ =>
    match O.statF sourcePath with
    | .error msg => errRes msg
    | .ok stats =>
      if ¬ shouldProcessFile sourcePath stats options then
        { sourcePath := sourcePath, destinationPath := destinationPath,
          status := .skipped, processingTime := 0, fileSize := stats.size,
          error := none, templated := false }
      else
        let isBin := isBinaryFile O sourcePath
        if isBin ∧ options.skipBinary then
          match O.copyF sourcePath destinationPath with
          | .error msg => errRes msg
          | .ok _ =>
            let chmodStep : Except String Unit :=
              if options.preservePermissions then O.chmodF destinationPath stats.mode
              else .ok ()
            match chmodStep with
            | .error msg => errRes msg
            | .ok _ =>
              { sourcePath := sourcePath, destinationPath := destinationPath,
                status := .success, processingTime := 0, fileSize := stats.size,
                error := none, templated := false }
        else
          let isTemplate := isTemplateFile sourcePath options.templateExtensions
          let contentStep : Except String Unit :=
            if isTemplate then
              match O.render sourcePath vars with
              | .error msg => .error msg
              | .ok rendered => O.writeF destinationPath rendered
            else O.streamCopy sourcePath destinationPath
          match contentStep with
          | .error msg => errRes msg
          | .ok _ =>
            let chmodStep : Except String Unit :=
              if options.preservePermissions then O.chmodF destinationPath stats.mode
              else .ok ()
            match chmodStep with
            | .error msg => errRes msg
            | .ok _ =>
              { sourcePath := sourcePath, destinationPath := destinationPath,
                status := .success, processingTime := 0, fileSize := stats.size,
                error := none, templated := isTemplate }

/-- `StreamingFileProcessor.processJobsConcurrently` ("direct processing"):
one result per job, in order; the surrounding `try/catch` that would convert
a thrown `processFile` into an error result is dead code here because
`processFile` catches internally. -/
def processJobsConcurrently (O : ProcOracle) (jobs : List ProcessingJob) :
    List FileProcessingResult :=
  jobs.map (fun job => processFile O job.sourcePath job.destinationPath job.vars job.options)

/-- `StreamingFileProcessor.createBatchResult`: status counts over the
result list. -/
def createBatchResult (results : List FileProcessingResult) (totalTime : Nat) :
    BatchProcessingResult :=
  { totalFiles := results.length
    successCount := (results.filter (fun r => r.status = .success)).length
    skippedCount := (results.filter (fun r => r.status = .skipped)).length
    errorCount := (results.filter (fun r => r.status = .error)).length
    totalTime := totalTime
    results := results }

/-- The job-execution tail of `StreamingFileProcessor.processBatch`
(after discovery and job construction, which are filesystem enumeration):
process every job and aggregate. -/
def processBatchJobs (O : ProcOracle) (jobs : List ProcessingJob) (totalTime : Nat) :
    BatchProcessingResult :=
  createBatchResult (processJobsConcurrently O jobs) totalTime

/-! ## Helper lemmas -/

theorem lookupA_mapSet {α : Type} (m : List (String × α)) (k : String) (v : α) :
    lookupA (mapSet m k v) k = some v := by
  induction m with
  | nil => simp [mapSet, lookupA]
  | cons p rest ih =>
    by_cases hk : p.1 = k
    · simp [mapSet, hk, lookupA]
    · cases p with
      | mk k' v' =>
        simp only [mapSet]
        rw [if_neg hk]
        simpa [lookupA, hk] using ih

theorem lookupA_mapSet_ne {α : Type} (m : List (String × α)) (k k' : String) (v : α)
    (h : k' ≠ k) : lookupA (mapSet m k v) k' = lookupA m k' := by
  induction m with
  | nil =>
    simp only [mapSet, lookupA]
    rw [if_neg (fun hh => h hh.symm)]
  | cons p rest ih =>
    cases p with
    | mk k0 v0 =>
      by_cases hk : k0 = k
      · subst hk
        simp only [mapSet, if_pos rfl, lookupA]
        rw [if_neg (fun hh => h hh.symm), if_neg (fun hh => h hh.symm)]
      · simp only [mapSet, if_neg hk, lookupA]
        by_cases hk' : k0 = k'
        · simp [hk']
        · simpa [hk'] using ih

/-! ## C1 — catalog version resolution -/

/-- The six catalog orders of the three descriptors of the claim. -/
def c1Catalogs : List (List Descriptor) :=
  [[⟨"x", "1.0.0"⟩, ⟨"x", "1.2.0"⟩, ⟨"x", "2.0.0"⟩],
   [⟨"x", "1.0.0"⟩, ⟨"x", "2.0.0"⟩, ⟨"x", "1.2.0"⟩],
   [⟨"x", "1.2.0"⟩, ⟨"x", "1.0.0"⟩, ⟨"x", "2.0.0"⟩],
   [⟨"x", "1.2.0"⟩, ⟨"x", "2.0.0"⟩, ⟨"x", "1.0.0"⟩],
   [⟨"x", "2.0.0"⟩, ⟨"x", "1.0.0"⟩, ⟨"x", "1.2.0"⟩],
   [⟨"x", "2.0.0"⟩, ⟨"x", "1.2.0"⟩, ⟨"x", "1.0.0"⟩]]

/-- C1, counterexample: for the catalog discovered in the order
`[1.0.0, 1.2.0, 2.0.0]`, `getTemplate("x", "^1.0.0")` returns the **1.0.0**
descriptor (the first range match in list order), not the 1.2.0 one the claim
requires. -/
theorem c1_caret_counterexample :
    getTemplate [⟨"x", "1.0.0"⟩, ⟨"x", "1.2.0"⟩, ⟨"x", "2.0.0"⟩] "x" (some "^1.0.0")
        = some ⟨"x", "1.0.0"⟩ ∧
    (some (Descriptor.mk "x" "1.0.0") : Option Descriptor) ≠ some ⟨"x", "1.2.0"⟩ := by
  decide

/-- C1, amended: for every discovery order of the descriptors
`{1.0.0, 1.2.0, 2.0.0}` named "x": `getTemplate("x")` returns the `2.0.0`
descriptor (maximum by semantic-version ordering); `getTemplate("x","^1.0.0")`
returns the **first descriptor in catalog order whose version satisfies the
range** — `1.0.0` or `1.2.0`, whichever is discovered first, never `2.0.0`;
and `getTemplate("x","9.9.9")` is absent (`none`), not an error. -/
theorem c1_version_resolution (l : List Descriptor) (hl : l ∈ c1Catalogs) :
    getTemplate l "x" none = some ⟨"x", "2.0.0"⟩ ∧
    getTemplate l "x" (some "^1.0.0")
      = l.find? (fun t => semverSatisfies t.version "^1.0.0") ∧
    (getTemplate l "x" (some "^1.0.0") = some ⟨"x", "1.0.0"⟩ ∨
     getTemplate l "x" (some "^1.0.0") = some ⟨"x", "1.2.0"⟩) ∧
    getTemplate l "x" (some "9.9.9") = none := by
  fin_cases hl <;> decide

/-- Witness for `c1_version_resolution` at the first catalog order. -/
theorem c1_version_resolution_witness :
    [Descriptor.mk "x" "1.0.0", ⟨"x", "1.2.0"⟩, ⟨"x", "2.0.0"⟩] ∈ c1Catalogs ∧
    getTemplate [⟨"x", "1.0.0"⟩, ⟨"x", "1.2.0"⟩, ⟨"x", "2.0.0"⟩] "x" none
      = some ⟨"x", "2.0.0"⟩ :=
  ⟨by decide, (c1_version_resolution _ (by decide)).1⟩

/-! ## C2 — TTL expiry boundary -/

/-- A sample compilation result for concrete cache scenarios. -/
def sampleResult : TemplateCompilationResult where
  template := 0
  compilationTime := 0
  dependencies := []
  meta := { path := "p", lastModified := 0, size := 0, vars := [],
            helpers := [], partials := [], extendsParent := none }
  cacheKey := "k"

/-- A sample compile-cache entry expiring at instant 100. -/
def sampleEntry : TemplateCacheEntry where
  result := sampleResult
  lastAccessed := 0
  accessCount := 1
  ttl := 100

/-- A sample context-cache entry expiring at instant 100. -/
def sampleCtxEntry : VariableCacheEntry where
  context := {}
  cachedAt := 0
  ttl := 100
  hash := "ck"

/-- C2, counterexample: both caches **hit** at exactly `T + ttl`.  An entry
inserted into the compile cache at `T = 0` (expiry instant `T + 5 min`) is
still returned by a read at time exactly `T + 5 min`, and likewise for the
context cache — the claim requires a miss at every time `≥ T + ttl`. -/
theorem c2_ttl_boundary_counterexample :
    (getCachedTemplate (cacheTemplate 1000 [] "k" sampleResult 0) "k" templateTtlMs).1.isSome
      = true ∧
    (getCachedContext (cacheContext 1000 [] "ck" {} 0) "ck" 1000).1.isSome = true := by
  constructor
  · decide
  · decide

/-- C2, amended: lazy TTL expiry is strict **above** the boundary, for both
the compiled-template cache and the variable-context cache.  An entry whose
expiry instant is `e.ttl` (set to `T + ttl` at insertion, where `T` is the
insertion time — last two conjuncts) is removed and missed by any read at
`now > e.ttl`, and is a hit at any read with `now ≤ e.ttl` (so the read at
exactly `T + ttl` hits); a template-cache hit refreshes the entry's access
bookkeeping. -/
theorem c2_ttl_boundary (cache : TemplateCache) (key : String) (e : TemplateCacheEntry)
    (ccache : ContextCache) (ckey : String) (ce : VariableCacheEntry)
    (now cnow : Nat)
    (h : lookupA cache key = some e) (hc : lookupA ccache ckey = some ce) :
    (now > e.ttl → getCachedTemplate cache key now = (none, eraseKey cache key)) ∧
    (now ≤ e.ttl → (getCachedTemplate cache key now).1 =
        some { e with lastAccessed := now, accessCount := e.accessCount + 1 }) ∧
    (cnow > ce.ttl → getCachedContext ccache ckey cnow = (none, eraseKey ccache ckey)) ∧
    (cnow ≤ ce.ttl → getCachedContext ccache ckey cnow = (some ce, ccache)) ∧
    (∀ (sz : Nat) (r : TemplateCompilationResult) (T : Nat),
      ∃ e', lookupA (cacheTemplate sz cache key r T) key = some e' ∧
        e'.ttl = T + templateTtlMs) ∧
    (∀ (ttl : Nat) (ctx : VariableContext) (T : Nat),
      ∃ e', lookupA (cacheContext ttl ccache ckey ctx T) ckey = some e' ∧
        e'.ttl = T + ttl) := by
  refine ⟨?_, ?_, ?_, ?_, ?_, ?_⟩
  · intro hgt
    simp [getCachedTemplate, h, hgt]
  · intro hle
    simp [getCachedTemplate, h, Nat.not_lt.mpr hle]
  · intro hgt
    simp [getCachedContext, hc, hgt]
  · intro hle
    simp [getCachedContext, hc, Nat.not_lt.mpr hle]
  · intro sz r T
    exact ⟨_, lookupA_mapSet _ _ _, rfl⟩
  · intro ttl ctx T
    exact ⟨_, lookupA_mapSet _ _ _, rfl⟩

/-- Witness for `c2_ttl_boundary`: a concrete singleton cache in each, read
after the boundary (template cache) and exactly at it (context cache). -/
theorem c2_ttl_boundary_witness :
    getCachedTemplate [("k", sampleEntry)] "k" 101
      = (none, eraseKey [("k", sampleEntry)] "k") ∧
    getCachedContext [("ck", sampleCtxEntry)] "ck" 100
      = (some sampleCtxEntry, [("ck", sampleCtxEntry)]) := by
  have h := c2_ttl_boundary [("k", sampleEntry)] "k" sampleEntry
    [("ck", sampleCtxEntry)] "ck" sampleCtxEntry 101 100 (by decide) (by decide)
  exact ⟨h.1 (by decide), h.2.2.2.1 (by decide)⟩

/-! ## C9 — descriptor validation -/

/-- A descriptor that is fully well-formed except for its empty description. -/
def c9Descriptor : TemplateMetadataDesc where
  name := "t"
  version := "1.0.0"
  description := ""
  dependencies := []
  varSchemas := []
  files := []
  securityStatus := .passed

/-- C9, counterexample: a descriptor with an **empty description** (and
everything else in order) still validates — the missing description is
recorded only as a warning, while the claim requires validation to fail. -/
theorem c9_description_counterexample :
    (validateTemplate c9Descriptor).valid = true ∧
    (validateTemplate c9Descriptor).warnings = ["Template description is missing"] := by
  decide

/-- C9, amended: the Validate stage is invalid — and the generation gate
fails before variable resolution or file processing — **exactly** when the
name is missing/blank, the version is missing or not semver, a dependency,
variable schema or file rule lacks a required field, or the security scan
status is "failed".  A missing/empty description is only a non-fatal warning,
and a "warning" security status is recorded as an advisory warning without
failing validation. -/
theorem c9_validate_characterization (t : TemplateMetadataDesc) :
    ((validateTemplate t).valid = false ↔
      ((t.name = "" ∨ (jsTrim t.name).length = 0) ∨
       (t.version = "" ∨ ¬ isValidSemver t.version) ∨
       (∃ d ∈ t.dependencies, d.name = "" ∨ d.version = "") ∨
       (∃ v ∈ t.varSchemas, v.name = "" ∨ v.type = "") ∨
       (∃ f ∈ t.files, f.source = "" ∨ f.destination = "") ∨
       t.securityStatus = .failed)) ∧
    (generateValidationGate t = .ok () ↔ (validateTemplate t).valid = true) ∧
    (t.securityStatus = .warning →
      "Template has security warnings" ∈ (validateTemplate t).warnings) ∧
    ((t.description = "" ∨ (jsTrim t.description).length = 0) →
      "Template description is missing" ∈ (validateTemplate t).warnings) := by
  have hnil : (validateTemplate t).errors = [] ↔
      ¬ (((t.name = "" ∨ (jsTrim t.name).length = 0) ∨
       (t.version = "" ∨ ¬ isValidSemver t.version) ∨
       (∃ d ∈ t.dependencies, d.name = "" ∨ d.version = "") ∨
       (∃ v ∈ t.varSchemas, v.name = "" ∨ v.type = "") ∨
       (∃ f ∈ t.files, f.source = "" ∨ f.destination = "") ∨
       t.securityStatus = .failed)) := by
    simp only [validateTemplate]
    simp [List.append_eq_nil, List.filterMap_eq_nil_iff, ite_eq_right_iff]
  have hvalid : (validateTemplate t).valid = (validateTemplate t).errors.isEmpty := rfl
  refine ⟨?_, ?_, ?_, ?_⟩
  · rw [hvalid]
    constructor
    · intro hfalse
      by_contra hnd
      have h0 : (validateTemplate t).errors = [] := hnil.mpr hnd
      rw [h0] at hfalse
      simp at hfalse
    · intro hdisj
      have h0 : ¬ (validateTemplate t).errors = [] := fun hn => (hnil.mp hn) hdisj
      cases herr : (validateTemplate t).errors with
      | nil => exact absurd herr h0
      | cons a l => rfl
  · unfold generateValidationGate
    cases hv : (validateTemplate t).valid <;> simp [hv]
  · intro hw
    simp [validateTemplate, hw]
  · intro hd
    simp [validateTemplate, hd]

/-! ## C5 — compile-cache key -/

mutual
/-- Prune a value to what survives serialization under property list `K`:
object fields (at any depth) named outside `K` are dropped. -/
def pruneJ (K : List String) : JValue → JValue
  | .arr xs => .arr (pruneL K xs)
  | .obj fs => .obj (pruneF K fs)
  | v => v

def pruneL (K : List String) : JList → JList
  | .nil => .nil
  | .cons x tl => .cons (pruneJ K x) (pruneL K tl)

def pruneF (K : List String) : JFields → JFields
  | .nil => .nil
  | .cons k v tl =>
    if k ∈ K then .cons k (pruneJ K v) (pruneF K tl) else pruneF K tl
end

mutual
/-- Serialization only sees the `K`-pruned part of a value. -/
theorem stringify_pruneJ (K : List String) :
    ∀ v : JValue, stringifyWith K (pruneJ K v) = stringifyWith K v
  | .null => rfl
  | .bool _ => rfl
  | .num _ => rfl
  | .str _ => rfl
  | .arr xs => by
    simp only [pruneJ, stringifyWith, stringify_pruneL K xs]
  | .obj fs => by
    simp only [pruneJ, stringifyWith]
    have hcongr : ∀ k ∈ K,
        (lookupA (serializeFields K (pruneF K fs)) k).map
          (fun s => quoteJ k ++ ":" ++ s) =
        (lookupA (serializeFields K fs) k).map (fun s => quoteJ k ++ ":" ++ s) := by
      intro k hk
      rw [lookup_serialize_pruneF K fs k hk]
    rw [List.filterMap_congr hcongr]

theorem stringify_pruneL (K : List String) :
    ∀ xs : JList, stringifyArr K (pruneL K xs) = stringifyArr K xs
  | .nil => rfl
  | .cons x .nil => by
    simp only [pruneL, stringifyArr, stringify_pruneJ K x]
  | .cons x (.cons y tl) => by
    have ih := stringify_pruneL K (JList.cons y tl)
    simp only [pruneL] at ih
    simp only [pruneL, stringifyArr, stringify_pruneJ K x, ih]

/-- Looking up the serialization of a property named in `K` is unaffected by
pruning. -/
theorem lookup_serialize_pruneF (K : List String) :
    ∀ (fs : JFields) (k : String), k ∈ K →
      lookupA (serializeFields K (pruneF K fs)) k
        = lookupA (serializeFields K fs) k
  | .nil, _, _ => rfl
  | .cons k' v tl, k, hk => by
    by_cases hmem : k' ∈ K
    · simp only [pruneF, if_pos hmem, serializeFields]
      by_cases hEq : k' = k
      · simp only [lookupA, if_pos hEq, stringify_pruneJ K v]
      · simp only [lookupA, if_neg hEq, lookup_serialize_pruneF K tl k hk]
    · simp only [pruneF, if_neg hmem, serializeFields]
      have hne : k' ≠ k := fun h => hmem (h ▸ hk)
      simp only [lookupA, if_neg hne, lookup_serialize_pruneF K tl k hk]
end

/-- The nested bindings `{a: {b: 1}}` and `{a: {b: 2}}`. -/
def c5Vars1 : List (String × JValue) :=
  [("a", JValue.obj (.cons "b" (.num 1) .nil))]

def c5Vars2 : List (String × JValue) :=
  [("a", JValue.obj (.cons "b" (.num 2) .nil))]

/-- C5, counterexample: the bindings `{a: {b: 1}}` and `{a: {b: 2}}` differ in
a value nested inside an object, yet produce the **same** cache key for the
same path — because `JSON.stringify(variables, sortedTopLevelKeys)` uses the
top-level key array as a property filter at every depth, dropping the nested
key `b`. -/
theorem c5_cache_key_counterexample :
    generateCacheKey "p" (some c5Vars1) = generateCacheKey "p" (some c5Vars2) ∧
    c5Vars1 ≠ c5Vars2 := by
  constructor
  · decide
  · decide

/-- C5, amended: the compile-cache key is
`resolvedPath + ":" + JSON.stringify(variables, sortedKeys(variables))`,
a deterministic function of the path and of the binding **pruned to the
top-level key set at every depth**: object fields (at any nesting level)
whose names are not among the binding's sorted top-level keys are dropped
from the serialization.  Hence two bindings with the same sorted top-level
keys and the same pruned content always receive the same key — in
particular, bindings differing only in nested values under non-top-level
names collide (see the counterexample); only differences that survive the
pruning can distinguish keys. -/
theorem c5_cache_key_pruned (path : String) (v1 v2 : List (String × JValue))
    (hK : sortedKeys v1 = sortedKeys v2)
    (hp : pruneJ (sortedKeys v1) (JValue.objL v1)
        = pruneJ (sortedKeys v1) (JValue.objL v2)) :
    generateCacheKey path (some v1) = generateCacheKey path (some v2) := by
  simp only [generateCacheKey]
  rw [← stringify_pruneJ (sortedKeys v1) (JValue.objL v1), hp, hK,
    stringify_pruneJ (sortedKeys v2) (JValue.objL v2)]

/-- Witness for `c5_cache_key_pruned` on the counterexample pair. -/
theorem c5_cache_key_pruned_witness :
    sortedKeys c5Vars1 = sortedKeys c5Vars2 ∧
    pruneJ (sortedKeys c5Vars1) (JValue.objL c5Vars1)
      = pruneJ (sortedKeys c5Vars1) (JValue.objL c5Vars2) ∧
    generateCacheKey "p" (some c5Vars1) = generateCacheKey "p" (some c5Vars2) :=
  ⟨by decide, by decide, c5_cache_key_pruned "p" c5Vars1 c5Vars2 (by decide) (by decide)⟩

/-! ## C3 — LRU eviction -/

/-- What the eviction scan of `evictLeastRecentlyUsed` computes: starting
from `acc`, the fold yields either `acc` itself or the image of some cache
entry, its time component never exceeds `acc.2`, and it is a lower bound on
every entry's `lastAccessed`. -/
theorem evictFold_spec (cache : TemplateCache) : ∀ acc : String × Nat,
    (cache.foldl (fun acc kv =>
        if kv.2.lastAccessed < acc.2 then (kv.1, kv.2.lastAccessed) else acc) acc = acc ∨
      ∃ p ∈ cache, cache.foldl (fun acc kv =>
        if kv.2.lastAccessed < acc.2 then (kv.1, kv.2.lastAccessed) else acc) acc
          = (p.1, p.2.lastAccessed)) ∧
    (cache.foldl (fun acc kv =>
        if kv.2.lastAccessed < acc.2 then (kv.1, kv.2.lastAccessed) else acc) acc).2 ≤ acc.2 ∧
    (∀ p ∈ cache, (cache.foldl (fun acc kv =>
        if kv.2.lastAccessed < acc.2 then (kv.1, kv.2.lastAccessed) else acc) acc).2
          ≤ p.2.lastAccessed) := by
  induction cache with
  | nil => exact fun acc => ⟨Or.inl rfl, Nat.le_refl _, by simp⟩
  | cons kv tl ih =>
    intro acc
    simp only [List.foldl_cons]
    by_cases hlt : kv.2.lastAccessed < acc.2
    · rw [if_pos hlt]
      obtain ⟨hmem, hle, hall⟩ := ih (kv.1, kv.2.lastAccessed)
      refine ⟨?_, ?_, ?_⟩
      · rcases hmem with h | ⟨p, hp, hq⟩
        · exact Or.inr ⟨kv, by simp, h⟩
        · exact Or.inr ⟨p, by simp [hp], hq⟩
      · exact Nat.le_trans hle (Nat.le_of_lt hlt)
      · intro p hp
        rcases List.mem_cons.mp hp with rfl | hp'
        · exact hle
        · exact hall p hp'
    · rw [if_neg hlt]
      obtain ⟨hmem, hle, hall⟩ := ih acc
      refine ⟨?_, hle, ?_⟩
      · rcases hmem with h | ⟨p, hp, hq⟩
        · exact Or.inl h
        · exact Or.inr ⟨p, by simp [hp], hq⟩
      · intro p hp
        rcases List.mem_cons.mp hp with rfl | hp'
        · exact Nat.le_trans hle (Nat.le_of_not_lt hlt)
        · exact hall p hp'

/-- In a cache with pairwise-distinct keys, two entries under the same key
coincide. -/
theorem entry_eq_of_nodup_keys (cache : TemplateCache)
    (hnd : (cache.map Prod.fst).Nodup) (k : String) (a b : TemplateCacheEntry)
    (ha : (k, a) ∈ cache) (hb : (k, b) ∈ cache) : a = b := by
  induction cache with
  | nil => cases ha
  | cons p tl ih =>
    simp only [List.map_cons, List.nodup_cons] at hnd
    rcases List.mem_cons.mp ha with rfl | ha' <;>
      rcases List.mem_cons.mp hb with hb' | hb'
    · cases hb'; rfl
    · exact absurd (List.mem_map_of_mem Prod.fst hb') (by simpa using hnd.1)
    · cases hb'
      exact absurd (List.mem_map_of_mem Prod.fst ha') (by simpa using hnd.1)
    · exact ih hnd.2 ha' hb'

/-- Deleting a present key from a cache with pairwise-distinct keys removes
exactly one entry. -/
theorem eraseKey_length (cache : TemplateCache) (k : String) (e : TemplateCacheEntry)
    (hnd : (cache.map Prod.fst).Nodup) (hmem : (k, e) ∈ cache) :
    (eraseKey cache k).length + 1 = cache.length := by
  induction cache with
  | nil => cases hmem
  | cons p tl ih =>
    simp only [List.map_cons, List.nodup_cons] at hnd
    by_cases hpk : p.1 = k
    · have htl : ∀ q ∈ tl, q.1 ≠ k := by
        intro q hq hqk
        apply hnd.1
        rw [hpk, ← hqk]
        exact List.mem_map_of_mem Prod.fst hq
      have hfilter : tl.filter (fun q => decide ¬ q.1 = k) = tl := by
        apply List.filter_eq_self.mpr
        intro q hq
        simpa using htl q hq
      simp only [eraseKey, List.filter_cons, ne_eq]
      rw [if_neg (by simp [hpk]), hfilter]
      simp
    · have hmem' : (k, e) ∈ tl := by
        rcases List.mem_cons.mp hmem with heq | h
        · exact absurd (by rw [← heq] : p.1 = k) hpk
        · exact h
      simp only [eraseKey, List.filter_cons, ne_eq]
      rw [if_pos (by simp [hpk])]
      simp only [List.length_cons]
      have := ih hnd.2 hmem'
      simp only [eraseKey, ne_eq] at this
      omega

/-- A concrete compile-cache entry last accessed at `t`, expiring at 500. -/
def c3Entry (t : Nat) : TemplateCacheEntry where
  result := sampleResult
  lastAccessed := t
  accessCount := 1
  ttl := 500

/-- C3, counterexample: a full cache whose entries were all accessed at the
current instant evicts **nothing** — the eviction scan starts from
`Date.now()` and only accepts strictly smaller `lastAccessed` values, so the
insertion grows the cache beyond its capacity, contradicting "exactly one
entry is removed" whenever the cache is at capacity. -/
theorem c3_no_eviction_counterexample :
    (cacheTemplate 2 [("k1", c3Entry 100), ("k2", c3Entry 100)] "k3" sampleResult 100).length
      = 3 ∧
    (lookupA (cacheTemplate 2 [("k1", c3Entry 100), ("k2", c3Entry 100)] "k3"
        sampleResult 100) "k1").isSome = true ∧
    (lookupA (cacheTemplate 2 [("k1", c3Entry 100), ("k2", c3Entry 100)] "k3"
        sampleResult 100) "k2").isSome = true := by
  refine ⟨by decide, by decide, by decide⟩

/-- C3, amended: when the cache is at capacity, has nonempty pairwise-distinct
keys, and holds at least one entry whose `lastAccessed` is **strictly before
the current instant**, inserting a new key first removes exactly one entry —
one bearing the minimum `lastAccessed` — and no entry accessed at or after
the current instant (in particular one just refreshed by a read) can be the
evicted one; a cache read of a fresh entry updates that entry's
`lastAccessed` to the read instant (last conjunct).  (When every entry was
accessed at the current instant, nothing is evicted — see the
counterexample.) -/
theorem c3_lru_eviction (cacheSize : Nat) (cache : TemplateCache) (key : String)
    (r : TemplateCompilationResult) (now : Nat)
    (hcap : cache.length ≥ cacheSize)
    (hkeys : ∀ p ∈ cache, p.1 ≠ "")
    (hnd : (cache.map Prod.fst).Nodup)
    (hstale : ∃ p ∈ cache, p.2.lastAccessed < now) :
    ∃ kmin emin, (kmin, emin) ∈ cache ∧
      emin.lastAccessed < now ∧
      (∀ p ∈ cache, emin.lastAccessed ≤ p.2.lastAccessed) ∧
      evictLeastRecentlyUsed cache now = eraseKey cache kmin ∧
      (eraseKey cache kmin).length + 1 = cache.length ∧
      (∀ p ∈ cache, now ≤ p.2.lastAccessed → p.1 ≠ kmin) ∧
      cacheTemplate cacheSize cache key r now
        = mapSet (eraseKey cache kmin) key
            { result := r, lastAccessed := now, accessCount := 1,
              ttl := now + templateTtlMs } ∧
      (∀ (k0 : String) (e0 : TemplateCacheEntry), lookupA cache k0 = some e0 →
        now ≤ e0.ttl →
        lookupA (getCachedTemplate cache k0 now).2 k0
          = some { e0 with lastAccessed := now, accessCount := e0.accessCount + 1 }) := by
  obtain ⟨hmem, hle, hall⟩ := evictFold_spec cache ("", now)
  obtain ⟨p0, hp0, hp0lt⟩ := hstale
  have hrlt : (cache.foldl (fun acc kv =>
      if kv.2.lastAccessed < acc.2 then (kv.1, kv.2.lastAccessed) else acc) ("", now)).2
        < now := Nat.lt_of_le_of_lt (hall p0 hp0) hp0lt
  rcases hmem with hacc | ⟨pm, hpm, hpmEq⟩
  · rw [hacc] at hrlt
    exact absurd hrlt (Nat.lt_irrefl now)
  · have hpm' : (pm.1, pm.2) ∈ cache := by rw [Prod.mk.eta]; exact hpm
    refine ⟨pm.1, pm.2, hpm', ?_, ?_, ?_, ?_, ?_, ?_, ?_⟩
    · have := hrlt
      rw [hpmEq] at this
      exact this
    · intro p hp
      have := hall p hp
      rw [hpmEq] at this
      exact this
    · simp only [evictLeastRecentlyUsed, hpmEq]
      rw [if_pos (by simpa using hkeys pm hpm)]
    · exact eraseKey_length cache pm.1 pm.2 hnd hpm'
    · intro p hp hnow hkeq
      have hp' : (pm.1, p.2) ∈ cache := by
        rw [← hkeq, Prod.mk.eta]
        exact hp
      have heq : p.2 = pm.2 :=
        entry_eq_of_nodup_keys cache hnd pm.1 p.2 pm.2 hp' hpm'
      have hlt : pm.2.lastAccessed < now := by
        have := hrlt
        rw [hpmEq] at this
        exact this
      rw [heq] at hnow
      exact absurd hnow (Nat.not_le_of_lt hlt)
    · simp only [cacheTemplate]
      rw [if_pos hcap]
      simp only [evictLeastRecentlyUsed, hpmEq]
      rw [if_pos (by simpa using hkeys pm hpm)]
    · intro k0 e0 hk0 hfresh
      simp only [getCachedTemplate, hk0]
      rw [if_neg (Nat.not_lt.mpr hfresh)]
      exact lookupA_mapSet _ _ _

/-- Witness for `c3_lru_eviction`: a two-entry cache at capacity where `k1`
is strictly older. -/
theorem c3_lru_eviction_witness :
    ([("k1", c3Entry 50), ("k2", c3Entry 100)] : TemplateCache).length ≥ 2 ∧
    (∃ kmin emin, (kmin, emin) ∈ ([("k1", c3Entry 50), ("k2", c3Entry 100)] : TemplateCache) ∧
      emin.lastAccessed < 100 ∧
      (∀ p ∈ ([("k1", c3Entry 50), ("k2", c3Entry 100)] : TemplateCache),
        emin.lastAccessed ≤ p.2.lastAccessed) ∧
      evictLeastRecentlyUsed [("k1", c3Entry 50), ("k2", c3Entry 100)] 100
        = eraseKey [("k1", c3Entry 50), ("k2", c3Entry 100)] kmin ∧
      (eraseKey [("k1", c3Entry 50), ("k2", c3Entry 100)] kmin).length + 1
        = ([("k1", c3Entry 50), ("k2", c3Entry 100)] : TemplateCache).length ∧
      (∀ p ∈ ([("k1", c3Entry 50), ("k2", c3Entry 100)] : TemplateCache),
        100 ≤ p.2.lastAccessed → p.1 ≠ kmin) ∧
      cacheTemplate 2 [("k1", c3Entry 50), ("k2", c3Entry 100)] "k3" sampleResult 100
        = mapSet (eraseKey [("k1", c3Entry 50), ("k2", c3Entry 100)] kmin) "k3"
            { result := sampleResult, lastAccessed := 100, accessCount := 1,
              ttl := 100 + templateTtlMs } ∧
      (∀ (k0 : String) (e0 : TemplateCacheEntry),
        lookupA [("k1", c3Entry 50), ("k2", c3Entry 100)] k0 = some e0 →
        100 ≤ e0.ttl →
        lookupA (getCachedTemplate [("k1", c3Entry 50), ("k2", c3Entry 100)] k0 100).2 k0
          = some { e0 with lastAccessed := 100, accessCount := e0.accessCount + 1 })) :=
  ⟨by decide,
   c3_lru_eviction 2 [("k1", c3Entry 50), ("k2", c3Entry 100)] "k3" sampleResult 100
     (by decide) (by decide) (by decide) (by decide)⟩

/-! ## C4 — compile-cache round trip -/

/-- A `getCachedTemplate` hit returns the refreshed entry and writes it back
under the same key. -/
theorem getCachedTemplate_hit (c : TemplateCache) (k : String) (now : Nat)
    (e : TemplateCacheEntry) (c' : TemplateCache)
    (h : getCachedTemplate c k now = (some e, c')) :
    c' = mapSet c k e := by
  unfold getCachedTemplate at h
  cases hl : lookupA c k with
  | none => rw [hl] at h; simp at h
  | some entry =>
    rw [hl] at h
    dsimp only at h
    by_cases hexp : now > entry.ttl
    · rw [if_pos hexp] at h
      simp at h
    · rw [if_neg hexp] at h
      simp only [Prod.mk.injEq, Option.some.injEq] at h
      rw [h.2.symm, h.1]

/-- After a successful `parseTemplate`, the cache maps the call's cache key
to an entry holding exactly the returned result. -/
theorem parseTemplate_post (cfg : ParserCfg) (O : ParserOracle) (st : ParserState)
    (templatePath : String) (vars : Option (List (String × JValue)))
    (now : Nat) (r1 : TemplateCompilationResult) (st1 : ParserState)
    (h : parseTemplate cfg O st templatePath { skipCache := false, vars := vars } now
        = .ok (r1, st1)) :
    ∃ e, lookupA st1.cache
        (generateCacheKey (pathResolve cfg.templateRoot templatePath) vars) = some e ∧
      e.result = r1 := by
  unfold parseTemplate at h
  dsimp only at h
  rw [if_neg (by simp)] at h
  split at h
  case _ entry cache' heq =>
    simp only [Except.ok.injEq, Prod.mk.injEq] at h
    obtain ⟨hr, hst⟩ := h
    have hc := getCachedTemplate_hit _ _ _ _ _ heq
    refine ⟨entry, ?_, hr⟩
    rw [← hst]
    dsimp only
    rw [hc]
    exact lookupA_mapSet _ _ _
  case _ cache' heq =>
    split at h
    · cases h
    case _ templateContent hread =>
      split at h
      · cases h
      case _ meta hanalyze =>
        split at h
        · cases h
        case _ processedContent hproc =>
          split at h
          · cases h
          case _ tpl hcompile =>
            simp only [Except.ok.injEq, Prod.mk.injEq] at h
            obtain ⟨hr, hst⟩ := h
            subst hr
            refine ⟨⟨_, now, 1, now + templateTtlMs⟩, ?_, rfl⟩
            rw [← hst]
            dsimp only
            unfold cacheTemplate
            exact lookupA_mapSet _ _ _

/-- C4: calling `parseTemplate` twice with the same path and variables, with
`skipCache` unset, when the entry left by the first call has not expired by
the second call's instant, makes the second call (i) a cache hit returning
**the stored compilation result of the first call** (reference identity in
JS, equality of the cached value here), (ii) increment the cache-hit
counter by one, and (iii) increment the entry's `accessCount`. -/
theorem c4_compile_roundtrip (cfg : ParserCfg) (O : ParserOracle) (st : ParserState)
    (templatePath : String) (vars : Option (List (String × JValue)))
    (now1 now2 : Nat) (r1 : TemplateCompilationResult) (st1 : ParserState)
    (h1 : parseTemplate cfg O st templatePath { skipCache := false, vars := vars } now1
        = .ok (r1, st1))
    (hfresh : ∀ e, lookupA st1.cache
        (generateCacheKey (pathResolve cfg.templateRoot templatePath) vars) = some e →
      now2 ≤ e.ttl) :
    ∃ e st2,
      lookupA st1.cache
        (generateCacheKey (pathResolve cfg.templateRoot templatePath) vars) = some e ∧
      e.result = r1 ∧
      parseTemplate cfg O st1 templatePath { skipCache := false, vars := vars } now2
        = .ok (r1, st2) ∧
      st2.cacheHits = st1.cacheHits + 1 ∧
      lookupA st2.cache
        (generateCacheKey (pathResolve cfg.templateRoot templatePath) vars)
        = some { e with lastAccessed := now2, accessCount := e.accessCount + 1 } := by
  obtain ⟨e, he, her⟩ := parseTemplate_post cfg O st templatePath vars now1 r1 st1 h1
  have hhit : getCachedTemplate st1.cache
      (generateCacheKey (pathResolve cfg.templateRoot templatePath) vars) now2
      = (some { e with lastAccessed := now2, accessCount := e.accessCount + 1 },
         mapSet st1.cache
           (generateCacheKey (pathResolve cfg.templateRoot templatePath) vars)
           { e with lastAccessed := now2, accessCount := e.accessCount + 1 }) := by
    unfold getCachedTemplate
    rw [he]
    dsimp only
    rw [if_neg (Nat.not_lt.mpr (hfresh e he))]
  refine ⟨e,
    { st1 with
      cache := mapSet st1.cache
        (generateCacheKey (pathResolve cfg.templateRoot templatePath) vars)
        { e with lastAccessed := now2, accessCount := e.accessCount + 1 }
      cacheHits := st1.cacheHits + 1 },
    he, her, ?_, rfl, ?_⟩
  · unfold parseTemplate
    dsimp only
    rw [if_neg (by simp), hhit, her]
  · exact lookupA_mapSet _ _ _

/-- A parser oracle whose every capability fails or is empty (hit-path
scenarios never consult it). -/
def trivialParserOracle : ParserOracle where
  readFile := fun _ => none
  statFile := fun _ => none
  variableMatches := fun _ => []
  partialMatches := fun _ => []
  helperMatches := fun _ => []
  extendsMatch := fun _ => none
  substituteBlocks := fun _ c => c
  existsSync := fun _ => false
  etaCompile := fun _ => .error "no compiler"

def c4Cfg : ParserCfg where
  templateRoot := "r"
  cacheSize := 10
  enableInheritance := false
  helperNames := []

/-- The seeded pre-state: one fresh entry under the key of path `"t"` with no
variables. -/
def c4St : ParserState where
  cache := [("r/t:", { result := sampleResult, lastAccessed := 0,
                       accessCount := 1, ttl := 1000 })]
  cacheHits := 0
  cacheMisses := 0
  totalCompilations := 0
  totalProcessingTime := 0

/-- The state after the first call (a hit at instant 10). -/
def c4St1 : ParserState where
  cache := [("r/t:", { result := sampleResult, lastAccessed := 10,
                       accessCount := 2, ttl := 1000 })]
  cacheHits := 1
  cacheMisses := 0
  totalCompilations := 0
  totalProcessingTime := 0

/-- Witness for `c4_compile_roundtrip` at a concrete seeded cache. -/
theorem c4_compile_roundtrip_witness :
    parseTemplate c4Cfg trivialParserOracle c4St "t" { skipCache := false, vars := none } 10
      = .ok (sampleResult, c4St1) ∧
    (∃ e st2,
      lookupA c4St1.cache (generateCacheKey (pathResolve c4Cfg.templateRoot "t") none)
        = some e ∧
      e.result = sampleResult ∧
      parseTemplate c4Cfg trivialParserOracle c4St1 "t"
          { skipCache := false, vars := none } 20 = .ok (sampleResult, st2) ∧
      st2.cacheHits = c4St1.cacheHits + 1 ∧
      lookupA st2.cache (generateCacheKey (pathResolve c4Cfg.templateRoot "t") none)
        = some { e with lastAccessed := 20, accessCount := e.accessCount + 1 }) := by
  constructor
  · decide
  · exact c4_compile_roundtrip c4Cfg trivialParserOracle c4St "t" none 10 20
      sampleResult c4St1 (by decide)
      (fun e he => by
        rw [show lookupA c4St1.cache
            (generateCacheKey (pathResolve c4Cfg.templateRoot "t") none)
          = some { result := sampleResult, lastAccessed := 10,
                   accessCount := 2, ttl := 1000 } from by decide] at he
        cases he
        decide)

/-! ## C6 — per-file failure isolation -/

/-- Every per-file result has one of the three statuses, so the three counts
partition the batch. -/
theorem status_partition (results : List FileProcessingResult) :
    (results.filter (fun r => r.status = .success)).length +
    (results.filter (fun r => r.status = .skipped)).length +
    (results.filter (fun r => r.status = .error)).length = results.length := by
  induction results with
  | nil => rfl
  | cons r tl ih =>
    cases hs : r.status <;> simp [List.filter_cons, hs] <;> omega

/-- Jobs whose processing does not error contribute nothing to the error
filter. -/
theorem filter_error_nil (O : ProcOracle) (jobs : List ProcessingJob)
    (h : ∀ job ∈ jobs,
      (processFile O job.sourcePath job.destinationPath job.vars job.options).status
        ≠ .error) :
    ((jobs.map (fun job =>
        processFile O job.sourcePath job.destinationPath job.vars job.options)).filter
      (fun r => r.status = .error)) = [] := by
  induction jobs with
  | nil => rfl
  | cons j tl ih =>
    simp only [List.map_cons, List.filter_cons]
    rw [if_neg (by simpa using h j (by simp))]
    exact ih (fun job hj => h job (by simp [hj]))

/-- C6: in a batch of jobs where exactly one job's file read throws (its
`stat` fails after the destination directory was ensured) and every other
job's processing does not error, `processBatch`'s job-execution stage still
returns a result covering **all** jobs, with exactly one "error" result —
carrying the exception message — and all remaining jobs "success" or
"skipped"; every job's result is exactly `processFile` of that job alone, so
the failure neither aborts nor alters the siblings and no exception crosses
the batch boundary. -/
theorem c6_failure_isolation (O : ProcOracle) (pre post : List ProcessingJob)
    (jf : ProcessingJob) (msg : String) (totalTime : Nat)
    (hmk : O.mkdirp (dirname jf.destinationPath) = .ok ())
    (hstat : O.statF jf.sourcePath = .error msg)
    (hothers : ∀ job ∈ pre ++ post,
      (processFile O job.sourcePath job.destinationPath job.vars job.options).status
        ≠ .error) :
    (processBatchJobs O (pre ++ jf :: post) totalTime).totalFiles
      = (pre ++ jf :: post).length ∧
    (processBatchJobs O (pre ++ jf :: post) totalTime).errorCount = 1 ∧
    (processBatchJobs O (pre ++ jf :: post) totalTime).successCount +
      (processBatchJobs O (pre ++ jf :: post) totalTime).skippedCount
      = (pre ++ jf :: post).length - 1 ∧
    ((processBatchJobs O (pre ++ jf :: post) totalTime).results.filter
        (fun r => r.status = .error))
      = [{ sourcePath := jf.sourcePath, destinationPath := jf.destinationPath,
           status := .error, processingTime := 0, fileSize := 0,
           error := some msg, templated := false }] ∧
    (processBatchJobs O (pre ++ jf :: post) totalTime).results
      = (pre ++ jf :: post).map (fun job =>
          processFile O job.sourcePath job.destinationPath job.vars job.options) := by
  have hjf : processFile O jf.sourcePath jf.destinationPath jf.vars jf.options
      = { sourcePath := jf.sourcePath, destinationPath := jf.destinationPath,
          status := .error, processingTime := 0, fileSize := 0,
          error := some msg, templated := false } := by
    unfold processFile
    rw [hmk]
    dsimp only
    rw [hstat]
  have hresults : (processBatchJobs O (pre ++ jf :: post) totalTime).results
      = (pre ++ jf :: post).map (fun job =>
          processFile O job.sourcePath job.destinationPath job.vars job.options) := rfl
  have hpre : ∀ job ∈ pre,
      (processFile O job.sourcePath job.destinationPath job.vars job.options).status
        ≠ .error := fun job hj => hothers job (List.mem_append_left _ hj)
  have hpost : ∀ job ∈ post,
      (processFile O job.sourcePath job.destinationPath job.vars job.options).status
        ≠ .error := fun job hj => hothers job (List.mem_append_right _ hj)
  have herrfilter : ((pre ++ jf :: post).map (fun job =>
        processFile O job.sourcePath job.destinationPath job.vars job.options)).filter
      (fun r => r.status = .error)
      = [{ sourcePath := jf.sourcePath, destinationPath := jf.destinationPath,
           status := .error, processingTime := 0, fileSize := 0,
           error := some msg, templated := false }] := by
    rw [List.map_append, List.filter_append, List.map_cons, List.filter_cons,
      filter_error_nil O pre hpre, hjf]
    rw [if_pos (by simp)]
    rw [filter_error_nil O post hpost]
    rfl
  have hcounts := status_partition ((pre ++ jf :: post).map (fun job =>
      processFile O job.sourcePath job.destinationPath job.vars job.options))
  have herrcount : (processBatchJobs O (pre ++ jf :: post) totalTime).errorCount = 1 := by
    show (((pre ++ jf :: post).map (fun job =>
        processFile O job.sourcePath job.destinationPath job.vars job.options)).filter
      (fun r => r.status = .error)).length = 1
    rw [herrfilter]
    rfl
  refine ⟨?_, herrcount, ?_, ?_, hresults⟩
  · have hT : (processBatchJobs O (pre ++ jf :: post) totalTime).totalFiles
        = ((pre ++ jf :: post).map (fun job =>
            processFile O job.sourcePath job.destinationPath job.vars job.options)).length :=
      rfl
    rw [hT]
    exact List.length_map _ _
  · have hS : (processBatchJobs O (pre ++ jf :: post) totalTime).successCount
        = (((pre ++ jf :: post).map (fun job =>
            processFile O job.sourcePath job.destinationPath job.vars job.options)).filter
          (fun r => r.status = .success)).length := rfl
    have hK : (processBatchJobs O (pre ++ jf :: post) totalTime).skippedCount
        = (((pre ++ jf :: post).map (fun job =>
            processFile O job.sourcePath job.destinationPath job.vars job.options)).filter
          (fun r => r.status = .skipped)).length := rfl
    have hlen : ((pre ++ jf :: post).map (fun job =>
        processFile O job.sourcePath job.destinationPath job.vars job.options)).length
        = (pre ++ jf :: post).length := List.length_map _ _
    have herrlen : (((pre ++ jf :: post).map (fun job =>
        processFile O job.sourcePath job.destinationPath job.vars job.options)).filter
      (fun r => r.status = .error)).length = 1 := by rw [herrfilter]; rfl
    rw [hS, hK]
    omega
  · rw [hresults]
    exact herrfilter

/-- A concrete processor oracle: every filesystem step succeeds except that
`stat` of `"bad"` throws. -/
def c6Oracle : ProcOracle where
  mkdirp := fun _ => .ok ()
  statF := fun p => if p = "bad" then .error "EIO: read failure" else .ok ⟨5, 420⟩
  mime := fun _ => none
  read1k := fun _ => some []
  copyF := fun _ _ => .ok ()
  chmodF := fun _ _ => .ok ()
  render := fun _ _ => .ok "rendered"
  writeF := fun _ _ => .ok ()
  streamCopy := fun _ _ => .ok ()

def c6Job (src dst : String) : ProcessingJob where
  id := src
  sourcePath := src
  destinationPath := dst
  vars := []
  options := {}

/-- Witness for `c6_failure_isolation`: three jobs, the middle one's read
throws. -/
theorem c6_failure_isolation_witness :
    c6Oracle.statF "bad" = .error "EIO: read failure" ∧
    (processBatchJobs c6Oracle
      [c6Job "good1" "out/good1", c6Job "bad" "out/bad", c6Job "good2" "out/good2"]
      5).totalFiles = 3 ∧
    (processBatchJobs c6Oracle
      [c6Job "good1" "out/good1", c6Job "bad" "out/bad", c6Job "good2" "out/good2"]
      5).errorCount = 1 ∧
    (processBatchJobs c6Oracle
      [c6Job "good1" "out/good1", c6Job "bad" "out/bad", c6Job "good2" "out/good2"]
      5).successCount +
    (processBatchJobs c6Oracle
      [c6Job "good1" "out/good1", c6Job "bad" "out/bad", c6Job "good2" "out/good2"]
      5).skippedCount = 2 := by
  have h := c6_failure_isolation c6Oracle [c6Job "good1" "out/good1"]
    [c6Job "good2" "out/good2"] (c6Job "bad" "out/bad") "EIO: read failure" 5
    (by decide) (by decide)
    (by
      intro job hj
      simp only [List.cons_append, List.nil_append, List.mem_cons,
        List.not_mem_nil, or_false] at hj
      rcases hj with rfl | rfl
      · decide
      · decide)
  exact ⟨by decide, h.1, h.2.1, h.2.2.1⟩

/-! ## C7 — required-variable validation -/

/-- When every bound variable validates, the first loop pushes no errors. -/
theorem vvBindStep_no_errors (rx : String → String → Bool)
    (schemas : List (String × VariableSchema)) (vars : List (String × JValue))
    (hpass : ∀ p ∈ vars, ∃ v', validateOne rx schemas p.1 p.2 = .ok v') :
    ∀ acc, (vars.foldl (vvBindStep rx schemas) acc).1 = acc.1 := by
  induction vars with
  | nil => intro acc; rfl
  | cons p tl ih =>
    intro acc
    obtain ⟨v', hv⟩ := hpass p (by simp)
    simp only [List.foldl_cons, vvBindStep, hv]
    exact ih (fun q hq => hpass q (by simp [hq])) _

/-- The required-variable sweep pushes exactly one `required_missing` error
per required schema that is absent from the bound variables and declares no
default, in schema order. -/
theorem vvRequiredStep_errors (vars : List (String × JValue)) :
    ∀ (schemas : List (String × VariableSchema)) acc,
      (schemas.foldl (vvRequiredStep vars) acc).1
        = acc.1 ++ ((schemas.filter (fun p => p.2.required ∧ ¬ hasKeyA vars p.1)).filter
            (fun p => p.2.default = none)).map (fun p =>
              { varName := p.1
                message := "Required variable '" ++ p.1 ++ "' is missing"
                code := "required_missing" }) := by
  intro schemas
  induction schemas with
  | nil => intro acc; simp
  | cons q tl ih =>
    intro acc
    simp only [List.foldl_cons, List.filter_cons]
    by_cases hcond : q.2.required ∧ ¬ hasKeyA vars q.1
    · rw [if_pos (by simpa using hcond)]
      cases hd : q.2.default with
      | some d =>
        simp only [vvRequiredStep, if_pos hcond, hd]
        rw [List.filter_cons, if_neg (by simp [hd])]
        exact ih _
      | none =>
        simp only [vvRequiredStep, if_pos hcond, hd]
        rw [List.filter_cons, if_pos (by simp [hd])]
        rw [ih _]
        simp
    · rw [if_neg (by simpa using hcond)]
      simp only [vvRequiredStep, if_neg hcond]
      exact ih _

/-- A sweep over schemas none of which is required-and-absent changes
nothing. -/
theorem vvRequiredStep_noop (vars : List (String × JValue)) :
    ∀ (schemas : List (String × VariableSchema)) acc,
      schemas.filter (fun p => p.2.required ∧ ¬ hasKeyA vars p.1) = [] →
      schemas.foldl (vvRequiredStep vars) acc = acc := by
  intro schemas
  induction schemas with
  | nil => intro acc _; rfl
  | cons q tl ih =>
    intro acc hfil
    rw [List.filter_cons] at hfil
    by_cases hcond : q.2.required ∧ ¬ hasKeyA vars q.1
    · rw [if_pos (by simpa using hcond)] at hfil
      cases hfil
    · rw [if_neg (by simpa using hcond)] at hfil
      simp only [List.foldl_cons, vvRequiredStep, if_neg hcond]
      exact ih _ hfil

/-- When the unique required-and-absent schema declares a default, the sweep
fills that default into the sanitized object. -/
theorem vvRequiredStep_default (vars : List (String × JValue)) (name : String)
    (s0 : VariableSchema) (d : JValue) :
    ∀ (schemas : List (String × VariableSchema)) acc,
      schemas.filter (fun p => p.2.required ∧ ¬ hasKeyA vars p.1) = [(name, s0)] →
      s0.default = some d →
      lookupA (schemas.foldl (vvRequiredStep vars) acc).2 name = some d := by
  intro schemas
  induction schemas with
  | nil => intro acc hfil _; cases hfil
  | cons q tl ih =>
    intro acc hfil hd
    rw [List.filter_cons] at hfil
    by_cases hcond : q.2.required ∧ ¬ hasKeyA vars q.1
    · rw [if_pos (by simpa using hcond)] at hfil
      simp only [List.cons.injEq] at hfil
      obtain ⟨hq, htl⟩ := hfil
      simp only [List.foldl_cons, vvRequiredStep, if_pos hcond]
      have hqd : q.2.default = some d := by rw [hq]; simpa [hq] using hd
      rw [hqd]
      rw [vvRequiredStep_noop vars tl _ htl]
      have hq1 : q.1 = name := by rw [hq]
      rw [hq1]
      exact lookupA_mapSet _ _ _
    · rw [if_neg (by simpa using hcond)] at hfil
      simp only [List.foldl_cons, vvRequiredStep, if_neg hcond]
      exact ih _ hfil hd

/-- `mapSet` on an absent key appends. -/
theorem mapSet_append_of_not_hasKey {α : Type} (m : List (String × α)) (k : String)
    (v : α) (h : ¬ hasKeyA m k) : mapSet m k v = m ++ [(k, v)] := by
  induction m with
  | nil => rfl
  | cons p tl ih =>
    have hk : p.1 ≠ k := by
      intro hx
      exact h (by simp [hasKeyA, lookupA, hx])
    cases p with
    | mk k' v' =>
      simp only [mapSet, if_neg hk]
      rw [ih (fun htl => h (by
        simp only [hasKeyA, lookupA] at htl ⊢
        rw [if_neg hk]
        exact htl))]
      simp

theorem hasKeyA_append {α : Type} (a b : List (String × α)) (k : String) :
    hasKeyA (a ++ b) k = (hasKeyA a k || hasKeyA b k) := by
  induction a with
  | nil => simp [hasKeyA, lookupA]
  | cons p tl ih =>
    by_cases hp : p.1 = k
    · simp [hasKeyA, lookupA, hp]
    · simpa [hasKeyA, lookupA, hp] using ih

/-- Assigning a fresh, duplicate-free source onto a target appends it. -/
theorem objAssign_fresh {α : Type} :
    ∀ (src acc : List (String × α)),
      (∀ q ∈ src, ¬ hasKeyA acc q.1) → (src.map Prod.fst).Nodup →
      objAssign acc src = acc ++ src := by
  intro src
  induction src with
  | nil => intro acc _ _; simp [objAssign]
  | cons p tl ih =>
    intro acc hfresh hnd
    simp only [List.map_cons, List.nodup_cons] at hnd
    have hstep : mapSet acc p.1 p.2 = acc ++ [p] := by
      rw [mapSet_append_of_not_hasKey acc p.1 p.2 (hfresh p (by simp))]
    have htl : ∀ q ∈ tl, ¬ hasKeyA (acc ++ [p]) q.1 := by
      intro q hq
      rw [hasKeyA_append]
      simp only [Bool.or_eq_true, not_or]
      refine ⟨by simpa using hfresh q (by simp [hq]), ?_⟩
      simp only [hasKeyA, lookupA]
      rw [if_neg ?_]
      · simp
      · intro hpq
        exact hnd.1 (hpq ▸ List.mem_map_of_mem Prod.fst hq)
    have := ih (acc ++ [p]) htl hnd.2
    simp only [objAssign, List.foldl_cons] at this ⊢
    rw [show mapSet acc p.1 p.2 = acc ++ [p] from hstep, this, List.append_assoc]
    rfl

/-- `Object.assign({}, src)` copies a duplicate-free source verbatim. -/
theorem objAssign_nil {α : Type} (src : List (String × α))
    (h : (src.map Prod.fst).Nodup) : objAssign [] src = src := by
  have := objAssign_fresh src [] (by intro q _; simp [hasKeyA, lookupA]) h
  simpa using this

/-- C7: when every bound variable passes its schema and exactly one declared
schema is required-but-absent, then: with no declared default, validation
fails with an error set naming **exactly** that variable (a single
`required_missing` error), and `resolveVariables` (validation enabled, empty
defaults and overrides so the merged user set is exactly the bound
variables, empty cache) throws; with a declared default, validation succeeds,
reports no error, and the sanitized variables carry the default. -/
theorem c7_required_missing (rx : String → String → Bool)
    (schemas : List (String × VariableSchema)) (vars : List (String × JValue))
    (name : String) (s0 : VariableSchema)
    (hnodup : (vars.map Prod.fst).Nodup)
    (hpass : ∀ p ∈ vars, ∃ v', validateOne rx schemas p.1 p.2 = .ok v')
    (hreq : schemas.filter (fun p => p.2.required ∧ ¬ hasKeyA vars p.1) = [(name, s0)]) :
    (s0.default = none →
      (validateVariables rx schemas vars).valid = false ∧
      (validateVariables rx schemas vars).errors.map (fun e => e.varName) = [name] ∧
      (validateVariables rx schemas vars).errors.map (fun e => e.code)
        = ["required_missing"] ∧
      (∀ (cfg : VariableCfg) (O : ResolverOracle) (opts : ResolutionOptions) (now : Nat),
        cfg.schemas = schemas → O.rx = rx → cfg.defaults = [] →
        opts.environment = none → opts.overrides = none →
        opts.skipValidation ≠ some true →
        ∃ emsg, (resolveVariables cfg O [] vars opts now).1 = .error emsg)) ∧
    (∀ d, s0.default = some d →
      (validateVariables rx schemas vars).valid = true ∧
      (validateVariables rx schemas vars).errors = [] ∧
      lookupA (validateVariables rx schemas vars).sanitized name = some d) := by
  have herrs : (validateVariables rx schemas vars).errors
      = ((schemas.filter (fun p => p.2.required ∧ ¬ hasKeyA vars p.1)).filter
          (fun p => p.2.default = none)).map (fun p =>
            { varName := p.1
              message := "Required variable '" ++ p.1 ++ "' is missing"
              code := "required_missing" }) := by
    show (schemas.foldl (vvRequiredStep vars) (vars.foldl (vvBindStep rx schemas) ([], []))).1
      = _
    rw [vvRequiredStep_errors vars schemas _,
      vvBindStep_no_errors rx schemas vars hpass ([], [])]
    rfl
  have hvalid : (validateVariables rx schemas vars).valid
      = (validateVariables rx schemas vars).errors.isEmpty := rfl
  constructor
  · intro hnone
    have herr1 : (validateVariables rx schemas vars).errors
        = [{ varName := name
             message := "Required variable '" ++ name ++ "' is missing"
             code := "required_missing" }] := by
      rw [herrs, hreq, List.filter_cons, if_pos (by simp [hnone])]
      rfl
    refine ⟨by rw [hvalid, herr1]; rfl, by rw [herr1]; rfl, by rw [herr1]; rfl, ?_⟩
    intro cfg O opts now hcs hrx hcd hoe hoo hsv
    refine ⟨"Variable validation failed: " ++
      String.intercalate ", " ((validateVariables rx schemas vars).errors.map
        (fun e => e.message)), ?_⟩
    have hlk : (if cfg.enableCaching then
        getCachedContext [] (generateCtxCacheKey O.sha256 vars opts) now
      else (none, ([] : ContextCache)))
        = (none, ([] : ContextCache)) := by
      by_cases hec : cfg.enableCaching <;> simp [hec, getCachedContext, lookupA]
    have huser2 : objAssign (objAssign ([] : List (String × JValue)) []) vars = vars := by
      rw [show objAssign ([] : List (String × JValue)) [] = [] from rfl]
      exact objAssign_nil vars hnodup
    have hinvalid : ¬ (validateVariables rx schemas vars).valid = true := by
      rw [hvalid, herr1]
      simp
    unfold resolveVariables
    simp only [hlk, hoe, hcd, hoo, hcs, hrx, huser2]
    rw [if_pos hsv, if_pos hinvalid, herr1]
  · intro d hd
    have herr0 : (validateVariables rx schemas vars).errors = [] := by
      rw [herrs, hreq, List.filter_cons, if_neg (by simp [hd])]
      rfl
    refine ⟨by rw [hvalid, herr0]; rfl, herr0, ?_⟩
    show lookupA (schemas.foldl (vvRequiredStep vars)
      (vars.foldl (vvBindStep rx schemas) ([], []))).2 name = some d
    exact vvRequiredStep_default vars name s0 d schemas _ hreq hd

/-- A required string schema with no default. -/
def c7ReqSchema : VariableSchema where
  name := "appName"
  type := .string
  required := true

/-- The same schema with a declared default. -/
def c7DefSchema : VariableSchema where
  name := "appName"
  type := .string
  required := true
  default := some (.str "druta-app")

/-- A fixed snapshot of the `Date`/`process`/OS facts. -/
def dummySysInfo : SysInfo where
  timestamp := "2026-01-01T00:00:00.000Z"
  date := "2026-01-01"
  time := "00:00:00"
  year := 2026
  month := 1
  day := 1
  platform := "linux"
  arch := "x64"
  nodeVersion := "v20.0.0"
  cwd := "/work"

def c7Oracle : ResolverOracle where
  procEnv := []
  sysVars := []
  sysInfo := dummySysInfo
  rx := fun _ _ => false
  sha256 := fun s => s

def c7Cfg : VariableCfg where
  environments := []
  defaults := []
  transformers := []
  schemas := [("appName", c7ReqSchema)]
  enableCaching := true
  cacheTtl := 1000

/-- Witness for `c7_required_missing`: the required variable "appName" is
absent from the empty binding. -/
theorem c7_required_missing_witness :
    (validateVariables (fun _ _ => false) [("appName", c7ReqSchema)] []).valid = false ∧
    (validateVariables (fun _ _ => false) [("appName", c7ReqSchema)] []).errors.map
      (fun e => e.varName) = ["appName"] ∧
    (∃ emsg, (resolveVariables c7Cfg c7Oracle [] [] {} 0).1 = .error emsg) ∧
    (validateVariables (fun _ _ => false) [("appName", c7DefSchema)] []).valid = true ∧
    lookupA (validateVariables (fun _ _ => false)
      [("appName", c7DefSchema)] []).sanitized "appName" = some (.str "druta-app") := by
  have h1 := c7_required_missing (fun _ _ => false) [("appName", c7ReqSchema)] []
    "appName" c7ReqSchema (by decide) (fun p hp => absurd hp (List.not_mem_nil p))
    (by decide)
  have h2 := c7_required_missing (fun _ _ => false) [("appName", c7DefSchema)] []
    "appName" c7DefSchema (by decide) (fun p hp => absurd hp (List.not_mem_nil p))
    (by decide)
  exact ⟨(h1.1 rfl).1, (h1.1 rfl).2.1,
    (h1.1 rfl).2.2.2 c7Cfg c7Oracle {} 0 rfl rfl rfl rfl rfl (by decide),
    (h2.2 (.str "druta-app") rfl).1, (h2.2 (.str "druta-app") rfl).2.2⟩

/-! ## C10 — error atomicity of the context cache -/

theorem lookupA_eraseKey {α : Type} (m : List (String × α)) (k : String) :
    lookupA (eraseKey m k) k = none := by
  induction m with
  | nil => rfl
  | cons p tl ih =>
    by_cases hp : p.1 = k
    · simpa [eraseKey, List.filter_cons, hp] using (by simpa [eraseKey] using ih)
    · simp only [eraseKey, List.filter_cons]
      rw [if_pos (by simpa using hp)]
      simpa [lookupA, hp, eraseKey] using ih

/-- A `getCachedContext` miss leaves the cache as-is or merely deletes the
expired entry under the key; either way the key is unbound afterwards. -/
theorem getCachedContext_miss (c : ContextCache) (k : String) (now : Nat)
    (c' : ContextCache) (h : getCachedContext c k now = (none, c')) :
    lookupA c' k = none ∧
    (c' = c ∨ ∃ e, lookupA c k = some e ∧ now > e.ttl ∧ c' = eraseKey c k) := by
  unfold getCachedContext at h
  cases hl : lookupA c k with
  | none =>
    rw [hl] at h
    simp only [Prod.mk.injEq] at h
    rw [← h.2]
    exact ⟨hl, Or.inl rfl⟩
  | some entry =>
    rw [hl] at h
    dsimp only at h
    by_cases hexp : now > entry.ttl
    · rw [if_pos hexp] at h
      simp only [Prod.mk.injEq] at h
      rw [← h.2]
      exact ⟨lookupA_eraseKey c k, Or.inr ⟨entry, rfl, hexp, rfl⟩⟩
    · rw [if_neg hexp] at h
      simp at h

/-- An entry that is already expired at the failing call's instant. -/
def c10Key : String := generateCtxCacheKey (fun s => s) [] {}

def c10Expired : VariableCacheEntry where
  context := {}
  cachedAt := 0
  ttl := 5
  hash := c10Key

/-- C10, counterexample to "the cache is left unchanged": a failing
`resolveVariables` call (required variable missing) whose cache holds an
**expired** entry under the call's own key deletes that entry during the
initial lookup, so the cache after the throw differs from the cache before
it. -/
theorem c10_lazy_delete_counterexample :
    (resolveVariables c7Cfg c7Oracle [(c10Key, c10Expired)] [] {} 10).1
      = .error "Variable validation failed: Required variable 'appName' is missing" ∧
    (resolveVariables c7Cfg c7Oracle [(c10Key, c10Expired)] [] {} 10).2 = [] ∧
    ([(c10Key, c10Expired)] : ContextCache) ≠ [] := by
  refine ⟨by decide, by decide, by decide⟩

/-- C10, amended: whenever `resolveVariables` throws, the context cache is
left unchanged **except** that an already-expired entry under the call's own
cache key may have been lazily removed by the initial lookup; in particular
no entry is ever inserted under the failing `(userVariables, options)` cache
key — afterwards the key is unbound (when caching is enabled) — so an
immediately repeated identical call re-runs the full resolution.  An entry is
inserted only on the success path, after every resolution step completed. -/
theorem c10_resolver_cache_atomicity (cfg : VariableCfg) (O : ResolverOracle)
    (cache : ContextCache) (userVars : List (String × JValue))
    (opts : ResolutionOptions) (now : Nat) (emsg : String)
    (h : (resolveVariables cfg O cache userVars opts now).1 = .error emsg) :
    ((resolveVariables cfg O cache userVars opts now).2
      = (if cfg.enableCaching then
          (getCachedContext cache (generateCtxCacheKey O.sha256 userVars opts) now).2
        else cache)) ∧
    (cfg.enableCaching = true →
      lookupA (resolveVariables cfg O cache userVars opts now).2
        (generateCtxCacheKey O.sha256 userVars opts) = none) ∧
    ((resolveVariables cfg O cache userVars opts now).2 = cache ∨
      ∃ e, lookupA cache (generateCtxCacheKey O.sha256 userVars opts) = some e ∧
        now > e.ttl ∧
        (resolveVariables cfg O cache userVars opts now).2
          = eraseKey cache (generateCtxCacheKey O.sha256 userVars opts)) := by
  by_cases hec : cfg.enableCaching
  · cases hafter : getCachedContext cache (generateCtxCacheKey O.sha256 userVars opts) now with
    | mk found cache' =>
      cases found with
      | some entry =>
        exfalso
        unfold resolveVariables at h
        dsimp only at h
        rw [if_pos hec, hafter] at h
        simp at h
      | none =>
        obtain ⟨hnone, hcases⟩ := getCachedContext_miss cache _ now cache' hafter
        have hsnd : (resolveVariables cfg O cache userVars opts now).2 = cache' := by
          unfold resolveVariables at h ⊢
          dsimp only at h ⊢
          rw [if_pos hec, hafter] at h ⊢
          dsimp only at h ⊢
          split
          case _ e heq => rfl
          case _ user4 heq =>
            rw [heq] at h
            dsimp only at h
            split
            case _ e2 heq2 => rfl
            case _ computed0 heq2 =>
              rw [heq2] at h
              dsimp only at h
              simp at h
        refine ⟨?_, fun _ => ?_, ?_⟩
        · rw [hsnd, if_pos hec]
        · rw [hsnd]
          exact hnone
        · rcases hcases with hsame | ⟨e, he, hexp, herase⟩
          · exact Or.inl (by rw [hsnd, hsame])
          · exact Or.inr ⟨e, he, hexp, by rw [hsnd, herase]⟩
  · have hsnd : (resolveVariables cfg O cache userVars opts now).2 = cache := by
      unfold resolveVariables at h ⊢
      dsimp only at h ⊢
      rw [if_neg hec] at h ⊢
      dsimp only at h ⊢
      split
      case _ e heq => rfl
      case _ user4 heq =>
        rw [heq] at h
        dsimp only at h
        split
        case _ e2 heq2 => rfl
        case _ computed0 heq2 =>
          rw [heq2] at h
          dsimp only at h
          simp at h
    refine ⟨by rw [hsnd, if_neg hec], fun hcontra => absurd hcontra (by simp [hec]), Or.inl hsnd⟩

/-- Witness for `c10_resolver_cache_atomicity`: the failing call of the
counterexample, with caching enabled and an expired entry under the key. -/
theorem c10_resolver_cache_atomicity_witness :
    (resolveVariables c7Cfg c7Oracle [(c10Key, c10Expired)] [] {} 10).2
      = (if c7Cfg.enableCaching then
          (getCachedContext [(c10Key, c10Expired)]
            (generateCtxCacheKey c7Oracle.sha256 [] {}) 10).2
        else [(c10Key, c10Expired)]) ∧
    (c7Cfg.enableCaching = true →
      lookupA (resolveVariables c7Cfg c7Oracle [(c10Key, c10Expired)] [] {} 10).2
        (generateCtxCacheKey c7Oracle.sha256 [] {}) = none) :=
  have h := c10_resolver_cache_atomicity c7Cfg c7Oracle [(c10Key, c10Expired)] [] {} 10
    "Variable validation failed: Required variable 'appName' is missing" (by decide)
  ⟨h.1, h.2.1⟩

/-! ## C8 — string interpolation -/

theorem interpScan_nil (vars : List (String × JValue)) : interpScan vars [] = [] := by
  simp [interpScan]

/-- A character that does not open a placeholder is copied verbatim. -/
theorem interpScan_cons_ne (vars : List (String × JValue)) (c : Char) (cs : List Char)
    (hc : ¬ (c = '$' ∧ cs.head? = some '{')) :
    interpScan vars (c :: cs) = c :: interpScan vars cs := by
  rw [interpScan]
  rw [if_neg hc]

/-- Scanning distributes over a placeholder-free prefix. -/
theorem interpScan_nodollar (vars : List (String × JValue)) (l rest : List Char)
    (h : '$' ∉ l) :
    interpScan vars (l ++ rest) = l ++ interpScan vars rest := by
  induction l with
  | nil => simp
  | cons c l' ih =>
    have hc : c ≠ '$' := fun hcc => h (hcc ▸ List.mem_cons_self c l')
    rw [List.cons_append, interpScan_cons_ne vars c (l' ++ rest) (fun hand => hc hand.1)]
    rw [ih (fun hmem => h (List.mem_cons_of_mem c hmem))]
    rfl

/-- A placeholder-free string is left verbatim. -/
theorem interpScan_pure (vars : List (String × JValue)) (l : List Char)
    (h : '$' ∉ l) : interpScan vars l = l := by
  have := interpScan_nodollar vars l [] h
  simpa [interpScan_nil] using this

theorem takeWhile_all_append (p q : List Char) (pred : Char → Bool)
    (hall : ∀ c ∈ p, pred c = true) :
    (p ++ q).takeWhile pred = p ++ q.takeWhile pred := by
  induction p with
  | nil => simp
  | cons c tl ih =>
    simp only [List.cons_append, List.takeWhile_cons, hall c (by simp)]
    rw [ih (fun d hd => hall d (by simp [hd]))]
    simp

theorem drop_len_add (p q : List Char) (n : Nat) :
    (p ++ q).drop (p.length + n) = q.drop n := by
  induction p with
  | nil => simp
  | cons c tl ih => simp only [List.cons_append, List.length_cons, Nat.succ_add, List.drop_succ_cons]; exact ih

/-- The whole-token scan step when the dotted path resolves: the token is
replaced by `String(value)`. -/
theorem interpScan_token_some (vars : List (String × JValue)) (p : List Char)
    (hne : p ≠ []) (hnb : '}' ∉ p) (v : JValue)
    (hget : getNestedValue vars (String.mk (trimChars p)) = some v) :
    interpScan vars ('$' :: '{' :: (p ++ ['}'])) = (jsToString v).data := by
  rw [interpScan]
  rw [if_pos ⟨rfl, rfl⟩]
  dsimp only [List.tail_cons]
  have hbody : (p ++ ['}']).takeWhile (fun ch => ch ≠ '}') = p := by
    rw [takeWhile_all_append p ['}'] _ (fun c hc => by
      simp only [ne_eq, decide_eq_true_eq]
      intro hcc
      exact hnb (hcc ▸ hc))]
    simp
  rw [hbody]
  rw [if_pos ⟨hne, by simp⟩]
  have hafter : (p ++ ['}']).drop (p.length + 1) = [] := by
    rw [drop_len_add]
    rfl
  rw [hafter, hget, interpScan_nil]
  simp

/-- The whole-token scan step when the path is unresolved: the token is
preserved verbatim, never partially substituted. -/
theorem interpScan_token_none (vars : List (String × JValue)) (p : List Char)
    (hne : p ≠ []) (hnb : '}' ∉ p)
    (hget : getNestedValue vars (String.mk (trimChars p)) = none) :
    interpScan vars ('$' :: '{' :: (p ++ ['}'])) = '$' :: '{' :: (p ++ ['}']) := by
  rw [interpScan]
  rw [if_pos ⟨rfl, rfl⟩]
  dsimp only [List.tail_cons]
  have hbody : (p ++ ['}']).takeWhile (fun ch => ch ≠ '}') = p := by
    rw [takeWhile_all_append p ['}'] _ (fun c hc => by
      simp only [ne_eq, decide_eq_true_eq]
      intro hcc
      exact hnb (hcc ▸ hc))]
    simp
  rw [hbody]
  rw [if_pos ⟨hne, by simp⟩]
  have hafter : (p ++ ['}']).drop (p.length + 1) = [] := by
    rw [drop_len_add]
    rfl
  rw [hafter, hget, interpScan_nil]

/-- The "Hi Ann" context of the claim: `user.name = "Ann"` plus a greeting
that references it. -/
def c8User : List (String × JValue) :=
  [("user", JValue.obj (.cons "name" (.str "Ann") .nil)),
   ("greeting", .str "Hi $\x7buser.name\x7d")]

def c8Ctx : VariableContext where
  user := c8User

/-- C8: string interpolation is a single, non-recursive pass.  (i) A
`$\x7bpath\x7d` placeholder whose dotted path resolves in the merged
env∪system∪user∪computed map is replaced by the value's string form; (ii) one
whose path is undefined keeps the **entire** literal token, never a partial
substitution; (iii) a substituted value is not re-interpolated: with
`x = "$\x7by\x7d"` and `y = "z"`, interpolating `"$\x7bx\x7d"` yields
`"$\x7by\x7d"`, not `"z"`; (iv) concretely, with `user.name = "Ann"`,
`interpolateVariables` maps `"Hi $\x7buser.name\x7d"` to `"Hi Ann"`. -/
theorem c8_single_pass_interpolation :
    (∀ (ctx : VariableContext) (pre p : String) (v : JValue),
      '$' ∉ pre.data → p.data ≠ [] → '}' ∉ p.data →
      getNestedValue (mergedLayers ctx) (String.mk (trimChars p.data)) = some v →
      interpolateString (pre ++ "$\x7b" ++ p ++ "\x7d") (mergedLayers ctx)
        = pre ++ jsToString v) ∧
    (∀ (ctx : VariableContext) (pre p : String),
      '$' ∉ pre.data → p.data ≠ [] → '}' ∉ p.data →
      getNestedValue (mergedLayers ctx) (String.mk (trimChars p.data)) = none →
      interpolateString (pre ++ "$\x7b" ++ p ++ "\x7d") (mergedLayers ctx)
        = pre ++ "$\x7b" ++ p ++ "\x7d") ∧
    (interpolateString "$\x7bx\x7d" [("x", .str "$\x7by\x7d"), ("y", .str "z")]
        = "$\x7by\x7d" ∧
      ("$\x7by\x7d" : String) ≠ "z") ∧
    lookupA (interpolateVariables c8User c8Ctx) "greeting"
      = some (.str "Hi Ann") := by
  have hdata : ∀ pre p : String, (pre ++ "$\x7b" ++ p ++ "\x7d").data
      = pre.data ++ ('$' :: '{' :: (p.data ++ ['}'])) := by
    intro pre p
    show ((pre.data ++ ['$', '{']) ++ p.data) ++ ['}']
      = pre.data ++ ('$' :: '{' :: (p.data ++ ['}']))
    simp
  refine ⟨?_, ?_, ⟨?_, by decide⟩, ?_⟩
  · intro ctx pre p v hpre hne hnb hget
    unfold interpolateString
    rw [hdata, interpScan_nodollar _ _ _ hpre,
      interpScan_token_some _ _ hne hnb v hget]
    rfl
  · intro ctx pre p hpre hne hnb hget
    unfold interpolateString
    rw [hdata, interpScan_nodollar _ _ _ hpre,
      interpScan_token_none _ _ hne hnb hget]
    exact congrArg String.mk (hdata pre p).symm
  · unfold interpolateString
    rw [show ("$\x7bx\x7d" : String).data = '$' :: '{' :: ("x".data ++ ['}']) from rfl]
    rw [interpScan_token_some _ _ (by decide) (by decide) (.str "$\x7by\x7d") (by decide)]
    rfl
  · have hM : mergedLayers c8Ctx = c8User := by decide
    have hGreet : interpolateString "Hi $\x7buser.name\x7d" c8User = "Hi Ann" := by
      unfold interpolateString
      rw [show ("Hi $\x7buser.name\x7d" : String).data
          = "Hi ".data ++ ('$' :: '{' :: ("user.name".data ++ ['}'])) from rfl]
      rw [interpScan_nodollar _ _ _ (by decide),
        interpScan_token_some _ _ (by decide) (by decide) (.str "Ann") (by decide)]
      rfl
    unfold interpolateVariables
    dsimp only
    rw [hM]
    show some (JValue.str (interpolateString "Hi $\x7buser.name\x7d" c8User))
      = some (JValue.str "Hi Ann")
    rw [hGreet]

/-- Closed instance of C8: a resolved placeholder is substituted and an
unresolved one is kept verbatim, on concrete inputs. -/
theorem c8_single_pass_interpolation_witness :
    interpolateString ("A: " ++ "$\x7b" ++ "user.name" ++ "\x7d") (mergedLayers c8Ctx)
      = "A: " ++ jsToString (JValue.str "Ann") ∧
    interpolateString ("A: " ++ "$\x7b" ++ "nope" ++ "\x7d") (mergedLayers c8Ctx)
      = "A: " ++ "$\x7b" ++ "nope" ++ "\x7d" :=
  ⟨c8_single_pass_interpolation.1 c8Ctx "A: " "user.name" (JValue.str "Ann")
      (by decide) (by decide) (by decide) (by decide),
    c8_single_pass_interpolation.2.1 c8Ctx "A: " "nope"
      (by decide) (by decide) (by decide) (by decide)⟩

end Druta
